import Mathlib

/-!
Shallow embedding of the OAuth authorization flow of the simbrief-mcp
repository: the cookie and HMAC utilities of `oauth-utils.ts`, the
allow-list of `allowed-users.ts`, and the Google handler routes of
`google-handler.ts`.  JavaScript strings are modelled as Lean `String`
(sequences of Unicode scalar values); fallible JavaScript operations
(thrown exceptions) are modelled with `Option` / `Except`, where `none` /
`.error` marks a thrown exception.
-/

namespace SimbriefMCP

/-- Characters that the ECMAScript lexical grammar counts as WhiteSpace
(used by `String.prototype.trim` and by `parseInt` when skipping leading
space): tab, vertical tab, form feed, space, no-break space, BOM and the
Unicode space separators. -/
def isJsSpace (c : Char) : Bool :=
  c.toNat = 0x09 || c.toNat = 0x0B || c.toNat = 0x0C || c.toNat = 0x20 ||
  c.toNat = 0xA0 || c.toNat = 0xFEFF || c.toNat = 0x1680 ||
  (0x2000 ≤ c.toNat && c.toNat ≤ 0x200A) || c.toNat = 0x202F ||
  c.toNat = 0x205F || c.toNat = 0x3000

/-- ECMAScript LineTerminator characters; the regexp `.` never matches
them, and `String.prototype.trim` strips them alongside WhiteSpace. -/
def isLineTerm (c : Char) : Bool :=
  c.toNat = 0x0A || c.toNat = 0x0D || c.toNat = 0x2028 || c.toNat = 0x2029

/-- Value of a hexadecimal digit, upper or lower case. -/
def hexDigitVal (c : Char) : Option Nat :=
  if '0' ≤ c ∧ c ≤ '9' then some (c.toNat - '0'.toNat)
  else if 'a' ≤ c ∧ c ≤ 'f' then some (c.toNat - 'a'.toNat + 10)
  else if 'A' ≤ c ∧ c ≤ 'F' then some (c.toNat - 'A'.toNat + 10)
  else none

/-- Lower-case hexadecimal digit for a value below 16, as produced by
`Number.prototype.toString(16)`. -/
def hexDigitChar (n : Nat) : Char :=
  if n < 10 then Char.ofNat ('0'.toNat + n) else Char.ofNat ('a'.toNat + (n - 10))

/-- Modelled from the spec: the underlying cryptographic primitive
(`crypto.subtle` HMAC-SHA-256, a platform builtin, not part of this
repository) is idealized as a keyed message-authentication code over the
secret and message strings, injective in the (secret, message) pair;
§4.1/§8 of the spec treat signatures under distinct secrets as never
cross-verifying.  Each character contributes six 4-bit values (its scalar
value in base 16, little-endian), and a separator byte 255 — never a
nibble — makes the pairing unambiguous.  Every list element is below 256,
matching the byte output of the real MAC. -/
def charNibbles (c : Char) : List Nat :=
  [c.toNat % 16, c.toNat / 16 % 16, c.toNat / 256 % 16, c.toNat / 4096 % 16,
   c.toNat / 65536 % 16, c.toNat / 1048576 % 16]

/-- Nibble expansion of a whole string, six entries per character. -/
def strNibbles (s : String) : List Nat := s.data.flatMap charNibbles

/-- Byte output of the idealized MAC (see `charNibbles`). -/
def hmacBytes (secret message : String) : List Nat :=
  strNibbles secret ++ 255 :: strNibbles message

/-- Two-character lower-case hex rendering of one byte:
`b.toString(16).padStart(2, "0")` for `b < 256`. -/
def byteHexChars (b : Nat) : List Char := [hexDigitChar (b / 16), hexDigitChar (b % 16)]

/-- Model of `signData` (oauth-utils): MAC over the message under the
secret, each byte rendered as two lower-case hex characters and joined. -/
def signData (secret data : String) : String :=
  ⟨(hmacBytes secret data).flatMap byteHexChars⟩

/-- Chunking performed by `signatureHex.match(/.{1,2}/g)`: greedy one-or-two
character matches of `.`, which skips line terminators.  The JS call
returns `null` exactly when this list is empty. -/
def dotChunks : List Char → List (List Char)
  | [] => []
  | [a] => if isLineTerm a then [] else [[a]]
  | a :: b :: r =>
    if isLineTerm a then dotChunks (b :: r)
    else if isLineTerm b then [a] :: dotChunks r
    else [a, b] :: dotChunks r

/-- Longest prefix of hexadecimal digits together with its value; `none`
when the prefix is empty (`parseInt` yields NaN). -/
def hexValAux : List Char → Nat → Nat
  | c :: r, acc =>
    match hexDigitVal c with
    | some v => hexValAux r (acc * 16 + v)
    | none => acc
  | [], acc => acc

/-- Value of the longest hex-digit prefix, `none` when there is none. -/
def hexVal : List Char → Option Nat
  | c :: r =>
    match hexDigitVal c with
    | some v => some (hexValAux r v)
    | none => none
  | [] => none

/-- Optional `0x` / `0X` radix prefix accepted by `parseInt(_, 16)`. -/
def strip0x : List Char → List Char
  | '0' :: 'x' :: r => r
  | '0' :: 'X' :: r => r
  | cs => cs

/-- Model of `parseInt(str, 16)`: leading ECMAScript whitespace (including
line terminators) is skipped, an optional sign and `0x` prefix are
consumed, and the longest hex-digit prefix gives the value; `none` is NaN. -/
def parseIntHex (cs : List Char) : Option Int :=
  match cs.dropWhile (fun c => isJsSpace c || isLineTerm c) with
  | '-' :: r => (hexVal (strip0x r)).map (fun n => -(n : Int))
  | '+' :: r => (hexVal (strip0x r)).map (fun n => (n : Int))
  | r => (hexVal (strip0x r)).map (fun n => (n : Int))

/-- `Uint8Array` element conversion of one parsed chunk: NaN becomes 0,
other values are taken modulo 256. -/
def byteFromChunk (cs : List Char) : Nat :=
  match parseIntHex cs with
  | none => 0
  | some i => (i.emod 256).toNat

/-- Model of `verifySignature` (oauth-utils).  The JS code splits the hex
string with `signatureHex.match(/.{1,2}/g)` and asserts the result non-null
with `!`; when the regexp finds no match (the string has no character other
than line terminators) the method returns `null` and the subsequent `.map`
throws a TypeError, modelled as `none`.  Otherwise `crypto.subtle.verify`
compares the parsed bytes against the recomputed MAC of `data`. -/
def verifySignature (secret signatureHex data : String) : Option Bool :=
  match dotChunks signatureHex.data with
  | [] => none
  | c :: cr => some (decide ((c :: cr).map byteFromChunk = hmacBytes secret data))

/-- Token stream for `decodeURIComponent`: literal characters and the bytes
written as `%XX` escapes. -/
inductive UriTok where
  | lit (c : Char)
  | byte (b : Nat)
deriving DecidableEq

/-- First pass of `decodeURIComponent`: each `%` must be followed by two
hex digits naming a byte, everything else stays literal; `none` is the
thrown URIError. -/
def uriToks : List Char → Option (List UriTok)
  | [] => some []
  | '%' :: a :: b :: r =>
    match hexDigitVal a, hexDigitVal b with
    | some va, some vb => (uriToks r).map (UriTok.byte (va * 16 + vb) :: ·)
    | _, _ => none
  | '%' :: _ => none
  | c :: r => (uriToks r).map (UriTok.lit c :: ·)

/-- Admissible range of the byte after a three-byte UTF-8 lead. -/
def utf8Mid3 (b : Nat) : Nat × Nat :=
  if b = 0xE0 then (0xA0, 0xBF) else if b = 0xED then (0x80, 0x9F) else (0x80, 0xBF)

/-- Admissible range of the byte after a four-byte UTF-8 lead. -/
def utf8Mid4 (b : Nat) : Nat × Nat :=
  if b = 0xF0 then (0x90, 0xBF) else if b = 0xF4 then (0x80, 0x8F) else (0x80, 0xBF)

/-- Second pass of `decodeURIComponent`: escape bytes must form valid
(shortest-form, non-surrogate) UTF-8 sequences, with every byte of one
sequence written as an escape; otherwise a URIError is thrown (`none`). -/
def utf8Toks : List UriTok → Option (List Char)
  | [] => some []
  | UriTok.lit c :: r => (utf8Toks r).map (c :: ·)
  | UriTok.byte b :: r =>
    if b < 0x80 then (utf8Toks r).map (Char.ofNat b :: ·)
    else if 0xC2 ≤ b ∧ b ≤ 0xDF then
      match r with
      | UriTok.byte b2 :: r2 =>
        if 0x80 ≤ b2 ∧ b2 ≤ 0xBF then
          (utf8Toks r2).map (Char.ofNat ((b % 32) * 64 + b2 % 64) :: ·)
        else none
      | _ => none
    else if 0xE0 ≤ b ∧ b ≤ 0xEF then
      match r with
      | UriTok.byte b2 :: UriTok.byte b3 :: r2 =>
        if ((utf8Mid3 b).1 ≤ b2 ∧ b2 ≤ (utf8Mid3 b).2) ∧ (0x80 ≤ b3 ∧ b3 ≤ 0xBF) then
          (utf8Toks r2).map (Char.ofNat ((b % 16) * 4096 + (b2 % 64) * 64 + b3 % 64) :: ·)
        else none
      | _ => none
    else if 0xF0 ≤ b ∧ b ≤ 0xF4 then
      match r with
      | UriTok.byte b2 :: UriTok.byte b3 :: UriTok.byte b4 :: r2 =>
        if ((utf8Mid4 b).1 ≤ b2 ∧ b2 ≤ (utf8Mid4 b).2) ∧ (0x80 ≤ b3 ∧ b3 ≤ 0xBF) ∧
            (0x80 ≤ b4 ∧ b4 ≤ 0xBF) then
          (utf8Toks r2).map
            (Char.ofNat ((b % 8) * 262144 + (b2 % 64) * 4096 + (b3 % 64) * 64 + b4 % 64) :: ·)
        else none
      | _ => none
    else none

/-- Model of the `decodeURIComponent` builtin; `none` is a thrown URIError. -/
def decodeURIComponent (s : String) : Option String :=
  (uriToks s.data >>= utf8Toks).map (⟨·⟩)

/-- JS `String.prototype.split` with a one-character separator: the list
of separator-free segments, empty segments included (an empty input gives
one empty segment, as in JS). -/
def splitOnChar (sep : Char) : List Char → List (List Char)
  | [] => [[]]
  | c :: r =>
    if c = sep then [] :: splitOnChar sep r
    else
      match splitOnChar sep r with
      | s :: ss => (c :: s) :: ss
      | [] => [[c]]

/-- JS `String.prototype.trim` on the character list: strip WhiteSpace and
LineTerminator from both ends. -/
def trimChars (cs : List Char) : List Char :=
  ((cs.dropWhile fun c => isJsSpace c || isLineTerm c).reverse.dropWhile
      fun c => isJsSpace c || isLineTerm c).reverse

/-- Model of `parseCookieHeader` (oauth-utils): split the header on `;`,
trim each part, split it on `=`; entries whose name and first `=`-segment
are both non-empty are recorded with the URL-decoded value (further
`=`-segments are dropped by the destructuring).  A malformed
percent-encoding throws a URIError (`none`).  Later assignments to the
same name overwrite earlier ones, so lookups read the last entry. -/
def parseCookieHeader (h : String) : Option (List (String × String)) :=
  (splitOnChar ';' h.data).foldlM (fun acc part =>
    match splitOnChar '=' (trimChars part) with
    | name :: value :: _ =>
      if name ≠ [] ∧ value ≠ [] then
        (uriToks value >>= utf8Toks).map
          (fun v => acc ++ [((⟨name⟩ : String), (⟨v⟩ : String))])
      else pure acc
    | _ => pure acc) []

/-- Lookup in the parsed cookie record: the last assignment wins. -/
def cookieLookup (cookies : List (String × String)) (name : String) : Option String :=
  (cookies.reverse.find? (fun p => p.1 == name)).map (·.2)

/-- Name of the approval-flag cookie for a client. -/
def approvedCookieName (clientId : String) : String := "client_" ++ clientId ++ "_approved"

/-- Name of the signature cookie for a client. -/
def signatureCookieName (clientId : String) : String := "client_" ++ clientId ++ "_signature"

/-- Model of `clientIdAlreadyApproved` (oauth-utils).  `none` models a
thrown exception: the URIError of `decodeURIComponent` while parsing the
header, or the TypeError inside `verifySignature`. -/
def clientIdAlreadyApproved (cookieHeader : Option String) (clientId encryptionKey : String) :
    Option Bool :=
  match cookieHeader with
  | none => some false
  | some h =>
    match parseCookieHeader h with
    | none => none
    | some cookies =>
      match cookieLookup cookies (approvedCookieName clientId),
            cookieLookup cookies (signatureCookieName clientId) with
      | some approvalCookie, some signatureCookie =>
        if approvalCookie = "" ∨ signatureCookie = "" then some false
        else
          match verifySignature encryptionKey signatureCookie approvalCookie with
          | none => none
          | some isValid => some (isValid && approvalCookie == "true")
      | _, _ => some false

/-- The configured allow-list of `allowed-users.ts` (email local parts). -/
def ALLOWED_USERNAMES : List String := ["leonnwankwo", "leonchike"]

/-- Model of `checkUserIsAllowed` (allowed-users.ts), with the allow-list
as a parameter: an empty list permits everyone, otherwise exact membership. -/
def checkUserIsAllowedWith (allowed : List String) (username : String) : Bool :=
  if allowed.length = 0 then true else allowed.contains username

/-- The repository function, applied to the configured allow-list. -/
def checkUserIsAllowed (username : String) : Bool :=
  checkUserIsAllowedWith ALLOWED_USERNAMES username

/-- JSON values as produced by `JSON.parse`.  Numbers keep their source
literal: no claim in this development depends on numeric values beyond
JavaScript truthiness, so number equality is textual and the re-formatting
a JS engine would apply (as well as double rounding/underflow of extreme
literals) is not modelled. -/
inductive Json where
  | null
  | bool (b : Bool)
  | num (lit : String)
  | str (s : String)
  | arr (elems : List Json)
  | obj (members : List (String × Json))
deriving Inhabited

/-- The four whitespace characters of the JSON grammar. -/
def jsonWs (c : Char) : Bool := c = ' ' || c = '\t' || c = '\n' || c = '\r'

/-- Skip JSON whitespace. -/
def skipJsonWs (cs : List Char) : List Char := cs.dropWhile jsonWs

/-- Value of four hex digits. -/
def hex4 (a b c d : Char) : Option Nat := do
  let va ← hexDigitVal a
  let vb ← hexDigitVal b
  let vc ← hexDigitVal c
  let vd ← hexDigitVal d
  pure (((va * 16 + vb) * 16 + vc) * 16 + vd)

/-- Body of a JSON string literal after the opening quote: characters up
to the closing quote, with escape sequences resolved.  Raw control
characters are rejected, as is an unpaired surrogate escape (a JS engine
would keep a lone surrogate code unit, which a Lean `Char` cannot hold;
no claim exercises that corner). -/
def parseStringBody : List Char → Option (List Char × List Char)
  | [] => none
  | '"' :: r => some ([], r)
  | '\\' :: 'u' :: a :: b :: c :: d :: r =>
    match hex4 a b c d with
    | none => none
    | some v =>
      if 0xD800 ≤ v ∧ v ≤ 0xDBFF then
        match r with
        | '\\' :: 'u' :: a2 :: b2 :: c2 :: d2 :: r2 =>
          match hex4 a2 b2 c2 d2 with
          | none => none
          | some v2 =>
            if 0xDC00 ≤ v2 ∧ v2 ≤ 0xDFFF then
              (parseStringBody r2).map (fun p =>
                (Char.ofNat (0x10000 + (v - 0xD800) * 0x400 + (v2 - 0xDC00)) :: p.1, p.2))
            else none
        | _ => none
      else if 0xDC00 ≤ v ∧ v ≤ 0xDFFF then none
      else (parseStringBody r).map (fun p => (Char.ofNat v :: p.1, p.2))
  | '\\' :: e :: r =>
    let c? : Option Char :=
      if e = '"' then some '"'
      else if e = '\\' then some '\\'
      else if e = '/' then some '/'
      else if e = 'b' then some '\x08'
      else if e = 'f' then some '\x0C'
      else if e = 'n' then some '\x0A'
      else if e = 'r' then some '\x0D'
      else if e = 't' then some '\x09'
      else none
    match c? with
    | none => none
    | some c => (parseStringBody r).map (fun p => (c :: p.1, p.2))
  | c :: r =>
    if c.toNat < 0x20 then none
    else (parseStringBody r).map (fun p => (c :: p.1, p.2))

/-- Decimal digit test of the JSON grammar. -/
def jsonDigit (c : Char) : Bool := '0' ≤ c && c ≤ '9'

/-- Integer part of a JSON number: `0` or a nonzero digit followed by more
digits (no leading zeros). -/
def parseJsonInt : List Char → Option (List Char × List Char)
  | '0' :: r => some (['0'], r)
  | c :: r =>
    if '1' ≤ c ∧ c ≤ '9' then some (c :: r.takeWhile jsonDigit, r.dropWhile jsonDigit)
    else none
  | [] => none

/-- Optional fraction part: a dot must be followed by at least one digit. -/
def parseJsonFrac : List Char → Option (List Char × List Char)
  | '.' :: r =>
    match r.takeWhile jsonDigit with
    | [] => none
    | ds => some ('.' :: ds, r.dropWhile jsonDigit)
  | cs => some ([], cs)

/-- Optional exponent part: `e`/`E`, an optional sign, at least one digit. -/
def parseJsonExp : List Char → Option (List Char × List Char)
  | e :: r =>
    if e = 'e' ∨ e = 'E' then
      let (sgn, r2) := match r with
        | '+' :: r' => (['+'], r')
        | '-' :: r' => (['-'], r')
        | r' => (([] : List Char), r')
      match r2.takeWhile jsonDigit with
      | [] => none
      | ds => some (e :: (sgn ++ ds), r2.dropWhile jsonDigit)
    else some ([], e :: r)
  | [] => some ([], [])

/-- A complete JSON number literal, returned as its source text. -/
def parseNumberLit (cs : List Char) : Option (List Char × List Char) := do
  let (sgn, r0) := match cs with
    | '-' :: r => (['-'], r)
    | r => (([] : List Char), r)
  let (ip, r1) ← parseJsonInt r0
  let (fp, r2) ← parseJsonFrac r1
  let (ep, r3) ← parseJsonExp r2
  pure (sgn ++ ip ++ fp ++ ep, r3)

mutual

/-- Recursive-descent JSON value parser with fuel (the nesting consumed by
one call is at least one input character, so `length + 1` fuel always
suffices at top level). -/
def parseJsonValue : Nat → List Char → Option (Json × List Char)
  | 0, _ => none
  | fuel + 1, cs =>
    match skipJsonWs cs with
    | 'n' :: 'u' :: 'l' :: 'l' :: r => some (Json.null, r)
    | 't' :: 'r' :: 'u' :: 'e' :: r => some (Json.bool true, r)
    | 'f' :: 'a' :: 'l' :: 's' :: 'e' :: r => some (Json.bool false, r)
    | '"' :: r => (parseStringBody r).map (fun p => (Json.str ⟨p.1⟩, p.2))
    | '\x7b' :: r =>
      match skipJsonWs r with
      | '\x7d' :: r2 => some (Json.obj [], r2)
      | r2 => (parseJsonMembers fuel r2).map (fun p => (Json.obj p.1, p.2))
    | '[' :: r =>
      match skipJsonWs r with
      | ']' :: r2 => some (Json.arr [], r2)
      | r2 => (parseJsonElems fuel r2).map (fun p => (Json.arr p.1, p.2))
    | cs' => (parseNumberLit cs').map (fun p => (Json.num ⟨p.1⟩, p.2))

/-- Members of a JSON object (after any leading whitespace), up to and
including the closing brace. -/
def parseJsonMembers : Nat → List Char → Option (List (String × Json) × List Char)
  | 0, _ => none
  | fuel + 1, cs =>
    match cs with
    | '"' :: r =>
      match parseStringBody r with
      | none => none
      | some (k, r2) =>
        match skipJsonWs r2 with
        | ':' :: r3 =>
          match parseJsonValue fuel r3 with
          | none => none
          | some (v, r4) =>
            match skipJsonWs r4 with
            | ',' :: r5 =>
              (parseJsonMembers fuel (skipJsonWs r5)).map (fun p => ((⟨k⟩, v) :: p.1, p.2))
            | '\x7d' :: r5 => some ([(⟨k⟩, v)], r5)
            | _ => none
        | _ => none
    | _ => none

/-- Elements of a JSON array, up to and including the closing bracket. -/
def parseJsonElems : Nat → List Char → Option (List Json × List Char)
  | 0, _ => none
  | fuel + 1, cs =>
    match parseJsonValue fuel cs with
    | none => none
    | some (v, r) =>
      match skipJsonWs r with
      | ',' :: r2 => (parseJsonElems fuel r2).map (fun p => (v :: p.1, p.2))
      | ']' :: r2 => some ([v], r2)
      | _ => none

end

/-- Model of `JSON.parse`: parse one value, allow trailing whitespace,
reject anything else; `none` is the thrown SyntaxError. -/
def jsonParse (s : String) : Option Json :=
  match parseJsonValue (s.length + 1) s.data with
  | some (j, rest) => if skipJsonWs rest = [] then some j else none
  | none => none

/-- Property read on a JSON value: objects yield their last binding for
the key (`JSON.parse` keeps the last duplicate), everything else yields
`undefined` (`none`). -/
def jsonGetField (j : Json) (k : String) : Option Json :=
  match j with
  | Json.obj ms => (ms.reverse.find? (fun m => m.1 == k)).map (·.2)
  | _ => none

/-- JavaScript truthiness of a JSON value: `null`, `false`, zero and the
empty string are falsy, objects and arrays are truthy.  A number is falsy
exactly when its mantissa digits are all zero (underflow of sub-denormal
literals to 0 is not modelled). -/
def jsTruthy : Json → Bool
  | Json.null => false
  | Json.bool b => b
  | Json.str s => s ≠ ""
  | Json.num lit =>
    (lit.data.takeWhile (fun c => c ≠ 'e' ∧ c ≠ 'E')).any (fun c => '1' ≤ c && c ≤ '9')
  | Json.arr _ => true
  | Json.obj _ => true

/-- Truthiness of a possibly-undefined value (`undefined` is falsy). -/
def jsTruthyOpt : Option Json → Bool
  | none => false
  | some j => jsTruthy j

/-- Test for the JSON null value: reading a member of `null` throws a
TypeError in JS, so the handlers guard on it. -/
def isNullJson : Json → Bool
  | Json.null => true
  | _ => false

/-- Base64 alphabet character for a six-bit value. -/
def b64Char (v : Nat) : Char :=
  if v < 26 then Char.ofNat ('A'.toNat + v)
  else if v < 52 then Char.ofNat ('a'.toNat + (v - 26))
  else if v < 62 then Char.ofNat ('0'.toNat + (v - 52))
  else if v = 62 then '+' else '/'

/-- Six-bit value of a base64 alphabet character. -/
def b64Val (c : Char) : Option Nat :=
  if 'A' ≤ c ∧ c ≤ 'Z' then some (c.toNat - 'A'.toNat)
  else if 'a' ≤ c ∧ c ≤ 'z' then some (c.toNat - 'a'.toNat + 26)
  else if '0' ≤ c ∧ c ≤ '9' then some (c.toNat - '0'.toNat + 52)
  else if c = '+' then some 62
  else if c = '/' then some 63
  else none

/-- Standard base64 encoding of a byte list, with `=` padding. -/
def b64EncodeBytes : List Nat → List Char
  | [] => []
  | [b1] => [b64Char (b1 / 4), b64Char (b1 % 4 * 16), '=', '=']
  | [b1, b2] => [b64Char (b1 / 4), b64Char (b1 % 4 * 16 + b2 / 16), b64Char (b2 % 16 * 4), '=']
  | b1 :: b2 :: b3 :: r =>
    b64Char (b1 / 4) :: b64Char (b1 % 4 * 16 + b2 / 16) :: b64Char (b2 % 16 * 4 + b3 / 64) ::
      b64Char (b3 % 64) :: b64EncodeBytes r

/-- Model of the `btoa` builtin: throws an InvalidCharacterError (`none`)
when some character is above U+00FF, otherwise base64 of the bytes. -/
def btoa (s : String) : Option String :=
  if s.data.all (fun c => c.toNat ≤ 255) then some ⟨b64EncodeBytes (s.data.map Char.toNat)⟩
  else none

/-- ASCII whitespace removed by forgiving-base64 (`atob`). -/
def asciiWs (c : Char) : Bool :=
  c.toNat = 0x09 || c.toNat = 0x0A || c.toNat = 0x0C || c.toNat = 0x0D || c.toNat = 0x20

/-- Strip one or two trailing `=` characters. -/
def stripBase64Pad (cs : List Char) : List Char :=
  match cs.reverse with
  | e1 :: e2 :: r =>
    if e1 = '=' then (if e2 = '=' then r.reverse else (e2 :: r).reverse) else cs
  | [e1] => if e1 = '=' then [] else cs
  | [] => cs

/-- Base64 encoding without the padding characters: the result of
stripping the trailing `=` from `b64EncodeBytes`. -/
def b64EncodeClean : List Nat → List Char
  | [] => []
  | [b1] => [b64Char (b1 / 4), b64Char (b1 % 4 * 16)]
  | [b1, b2] => [b64Char (b1 / 4), b64Char (b1 % 4 * 16 + b2 / 16), b64Char (b2 % 16 * 4)]
  | b1 :: b2 :: b3 :: r =>
    b64Char (b1 / 4) :: b64Char (b1 % 4 * 16 + b2 / 16) :: b64Char (b2 % 16 * 4 + b3 / 64) ::
      b64Char (b3 % 64) :: b64EncodeClean r

/-- Decode six-bit groups into bytes, discarding leftover bits. -/
def b64DecodeVals : List Nat → List Nat
  | v1 :: v2 :: v3 :: v4 :: r =>
    (v1 * 4 + v2 / 16) :: (v2 % 16 * 16 + v3 / 4) :: (v3 % 4 * 64 + v4) :: b64DecodeVals r
  | [v1, v2] => [v1 * 4 + v2 / 16]
  | [v1, v2, v3] => [v1 * 4 + v2 / 16, v2 % 16 * 16 + v3 / 4]
  | _ => []

/-- Model of the `atob` builtin (WHATWG forgiving-base64): remove ASCII
whitespace, strip up to two trailing `=` when the length is a multiple of
four, reject a remainder of one and any character outside the alphabet,
then decode; `none` is the thrown InvalidCharacterError. -/
def atob (s : String) : Option String :=
  let cs := s.data.filter (fun c => !asciiWs c)
  let cs := if cs.length % 4 = 0 then stripBase64Pad cs else cs
  if cs.length % 4 = 1 then none
  else (cs.mapM b64Val).map (fun vs => ⟨(b64DecodeVals vs).map Char.ofNat⟩)

/-- Modelled from the spec: the `AuthRequest` produced by the downstream
protocol layer (`@cloudflare/workers-oauth-provider`, an external library,
not part of this repository).  Per §3 of the spec it carries the
requesting client's identifier, the requested scope and an opaque
correlation state, and must be fully self-describing across the redirect
round trip. -/
structure AuthRequest where
  clientId : String
  scope : String
  state : String
deriving DecidableEq

/-- JSON value of an `AuthRequest`, fields in insertion order. -/
def AuthRequest.toJson (r : AuthRequest) : Json :=
  Json.obj [("clientId", Json.str r.clientId), ("scope", Json.str r.scope),
            ("state", Json.str r.state)]

/-- QuoteJSONString escaping of one character as performed by
`JSON.stringify`: quote, backslash and control characters are escaped (the
five shorthand escapes, `\u00XX` otherwise); all else is literal. -/
def escChar (c : Char) : List Char :=
  if c = '"' then ['\\', '"']
  else if c = '\\' then ['\\', '\\']
  else if c = '\x08' then ['\\', 'b']
  else if c = '\x09' then ['\\', 't']
  else if c = '\x0A' then ['\\', 'n']
  else if c = '\x0C' then ['\\', 'f']
  else if c = '\x0D' then ['\\', 'r']
  else if c.toNat < 0x20 then
    ['\\', 'u', '0', '0', hexDigitChar (c.toNat / 16), hexDigitChar (c.toNat % 16)]
  else [c]

/-- Escaped body of a JSON string literal. -/
def escString (s : String) : List Char := s.data.flatMap escChar

/-- `JSON.stringify` of an `AuthRequest` object: the three string fields in
insertion order, no added whitespace. -/
def stringifyAuthRequest (r : AuthRequest) : String :=
  "\x7b\"clientId\":\"" ++ (⟨escString r.clientId⟩ : String) ++ "\",\"scope\":\"" ++
    (⟨escString r.scope⟩ : String) ++ "\",\"state\":\"" ++
    (⟨escString r.state⟩ : String) ++ "\"\x7d"

/-- State parameter built in `redirectToGoogle` (google-handler.ts):
`btoa(JSON.stringify(oauthReqInfo))`; `none` is the btoa fault. -/
def encodeStateParam (r : AuthRequest) : Option String := btoa (stringifyAuthRequest r)

/-- State decoding at `GET /callback`:
`JSON.parse(atob(c.req.query("state") as string))`.  A missing query
parameter reaches `atob` as the coerced string `"undefined"`; `none` is a
thrown InvalidCharacterError or SyntaxError. -/
def decodeStateParam (state : Option String) : Option Json :=
  atob (state.getD "undefined") >>= jsonParse

/-- HTTP response as far as the claims observe it: status and body text. -/
structure HttpResp where
  status : Nat
  body : String
deriving DecidableEq

/-- Access-denied page of `getAuthDeniedResponse` (allowed-users.ts): the
HTML before the interpolated username. -/
def deniedHtmlA : String :=
  "\n<!DOCTYPE html>\n<html>\n<head>\n  <meta charset=\"UTF-8\">\n  <meta name=\"viewport\" content=\"width=device-width, initial-scale=1.0\">\n  <title>Access Denied</title>\n  <style>\n    body \x7b\n      font-family: -apple-system, BlinkMacSystemFont, \x27Segoe UI\x27, Roboto, sans-serif;\n      background: #f5f5f5;\n      margin: 0;\n      padding: 20px;\n      display: flex;\n      justify-content: center;\n      align-items: center;\n      min-height: 100vh;\n    \x7d\n    .container \x7b\n      background: white;\n      border-radius: 8px;\n      box-shadow: 0 2px 10px rgba(0,0,0,0.1);\n      padding: 32px;\n      max-width: 400px;\n      width: 100%;\n      text-align: center;\n    \x7d\n    .icon \x7b\n      width: 64px;\n      height: 64px;\n      margin: 0 auto 16px;\n      background: #dc3545;\n      border-radius: 50%;\n      display: flex;\n      align-items: center;\n      justify-content: center;\n      color: white;\n      font-size: 32px;\n    \x7d\n    h1 \x7b\n      font-size: 24px;\n      margin: 0 0 16px;\n      color: #333;\n    \x7d\n    p \x7b\n      color: #666;\n      line-height: 1.5;\n      margin: 0 0 24px;\n    \x7d\n    .username \x7b\n      font-family: monospace;\n      background: #f8f9fa;\n      padding: 4px 8px;\n      border-radius: 4px;\n    \x7d\n  </style>\n</head>\n<body>\n  <div class=\"container\">\n    <div class=\"icon\">×</div>\n    <h1>Access Denied</h1>\n    <p>\n      The user <span class=\"username\">"

/-- Access-denied page: the HTML after the interpolated username. -/
def deniedHtmlB : String :=
  "</span> is not authorized to access this MCP server.\n    </p>\n    <p>\n      Please contact the server administrator to request access.\n    </p>\n  </div>\n</body>\n</html>"

/-- Model of `getAuthDeniedResponse` (allowed-users.ts): 403 HTML page
naming the rejected username. -/
def getAuthDeniedResponse (username : String) : HttpResp :=
  ⟨403, deniedHtmlA ++ username ++ deniedHtmlB⟩

/-- Upstream HTTP response as observed by the handler: its success flag
and raw body text. -/
structure UpstreamResp where
  ok : Bool
  body : String
deriving DecidableEq

/-- Oracles for the external collaborators of the callback route: the
Google token endpoint, the Google userinfo endpoint, and the redirect
target returned by the downstream provider's `completeAuthorization`. -/
structure CallbackEnv where
  tokenResp : UpstreamResp
  userResp : UpstreamResp
  redirectTo : String
deriving DecidableEq

/-- Query parameters of the `GET /callback` request. -/
structure CallbackReq where
  state : Option String
  code : Option String
deriving DecidableEq

/-- Model of `fetchGoogleAccessToken` (google-handler.ts): the guard
`if (!code)` is the JS falsy test on a `string | undefined`, so both an
absent and a present-but-empty code yield the 400 response; a failed
upstream exchange yields an opaque 500 response whose body is the fixed
literal (the upstream body is never read); otherwise the upstream JSON
body is parsed (a thrown SyntaxError if malformed, a TypeError if `null`)
and its `access_token` member returned. -/
def fetchGoogleAccessToken (tokenResp : UpstreamResp) (code : Option String) :
    Except Unit (HttpResp ⊕ Option Json) :=
  if code.getD "" = "" then Except.ok (Sum.inl ⟨400, "Missing authorization code"⟩)
  else if !tokenResp.ok then Except.ok (Sum.inl ⟨500, "Failed to exchange authorization code"⟩)
  else
    match jsonParse tokenResp.body with
    | none => Except.error ()
    | some tokenData =>
      if isNullJson tokenData then Except.error ()
      else Except.ok (Sum.inr (jsonGetField tokenData "access_token"))

/-- Model of the `GET /callback` route (google-handler.ts).  The result
pairs the response with a flag recording whether
`OAUTH_PROVIDER.completeAuthorization` was invoked (a token minted and a
props record created); `.error ()` is an uncaught thrown exception — the
route installs no error handling. -/
def googleCallback (env : CallbackEnv) (req : CallbackReq) : Except Unit (HttpResp × Bool) :=
  match decodeStateParam req.state with
  | none => Except.error ()
  | some oauthReqInfo =>
    if isNullJson oauthReqInfo then Except.error ()
    else if !(jsTruthyOpt (jsonGetField oauthReqInfo "clientId")) then
      Except.ok (⟨400, "Invalid state"⟩, false)
    else
      match fetchGoogleAccessToken env.tokenResp req.code with
      | Except.error () => Except.error ()
      | Except.ok (Sum.inl errResponse) => Except.ok (errResponse, false)
      | Except.ok (Sum.inr _accessToken) =>
        if !env.userResp.ok then Except.ok (⟨500, "Failed to fetch user info"⟩, false)
        else
          match jsonParse env.userResp.body with
          | none => Except.error ()
          | some userData =>
            match jsonGetField userData "email" with
            | some (Json.str email) =>
              let login : String := ⟨email.data.takeWhile (fun c => c ≠ '@')⟩
              if !checkUserIsAllowed login then
                Except.ok (getAuthDeniedResponse login, false)
              else
                Except.ok (⟨302, ""⟩, true)
            | _ => Except.error ()

/-- Template-literal coercion `String(v)` of a JSON value: strings pass
through, numbers keep their literal text (engine re-formatting is not
modelled), arrays join their elements with commas rendering null as the
empty string, plain objects print as `[object Object]`. -/
def jsToString : Json → String
  | Json.null => "null"
  | Json.bool true => "true"
  | Json.bool false => "false"
  | Json.num lit => lit
  | Json.str s => s
  | Json.obj _ => "[object Object]"
  | Json.arr es => String.intercalate "," (es.attach.map (fun e =>
      if isNullJson e.1 then "" else jsToString e.1))
termination_by j => sizeOf j
decreasing_by
  have h := List.sizeOf_lt_of_mem e.2
  simp only [Json.arr.sizeOf_spec]
  omega

/-- Values of a form entry: strings or uploaded files. -/
inductive FormValue where
  | str (s : String)
  | file
deriving DecidableEq

/-- Form data lookup: `FormData.get` returns the first entry of the name. -/
def formGet (form : List (String × FormValue)) (k : String) : Option FormValue :=
  (form.find? (fun p => p.1 == k)).map (·.2)

/-- Minimal model of a JS `Date`: a year and an opaque remainder of the
instant.  `expires.setFullYear(expires.getFullYear() + 1)` bumps the year
(the overflow of Feb 29 to Mar 1 is not distinguished), and `toUTCString`
renders it; the claims only compare these rendered strings. -/
structure JSDate where
  year : Int
  rest : String
deriving DecidableEq

/-- Date one year after `d`, as computed by
`expires.setFullYear(expires.getFullYear() + 1)`. -/
def JSDate.addOneYear (d : JSDate) : JSDate := ⟨d.year + 1, d.rest⟩

/-- Rendering of `Date.prototype.toUTCString`, abstracted: determined by
the modelled fields, the concrete RFC-1123 layout left opaque. -/
def toUTCString (d : JSDate) : String := d.rest ++ toString d.year

/-- The two `Set-Cookie` directive strings built by `parseRedirectApproval`
for a client: approval flag and signature, each scoped to path `/` with
`HttpOnly`, `Secure`, `SameSite=Strict` and the given expiry date. -/
def setCookieDirectives (clientId signature expires : String) : List String :=
  [approvedCookieName clientId ++
     "=true; Path=/; HttpOnly; Secure; SameSite=Strict; Expires=" ++ expires,
   signatureCookieName clientId ++ "=" ++ signature ++
     "; Path=/; HttpOnly; Secure; SameSite=Strict; Expires=" ++ expires]

/-- Model of `parseRedirectApproval` (oauth-utils): read the `state` form
field (an error unless a non-empty string), parse it as JSON (SyntaxError
if malformed, TypeError if `null` at the member read), require a truthy
`state.oauthReqInfo?.clientId` and return the parsed state unchanged
together with the `Set-Cookie` header joining the two signed-cookie
directives, which expire one year from `now`.  `.error ()` models any
thrown error. -/
def parseRedirectApproval (form : List (String × FormValue)) (encryptionKey : String)
    (now : JSDate) : Except Unit (Json × List (String × String)) :=
  match formGet form "state" with
  | some (FormValue.str stateStr) =>
    if stateStr = "" then Except.error ()
    else
      match jsonParse stateStr with
      | none => Except.error ()
      | some state =>
        if isNullJson state then Except.error ()
        else
          let cid? := (jsonGetField state "oauthReqInfo").bind
            (fun o => jsonGetField o "clientId")
          if !(jsTruthyOpt cid?) then Except.error ()
          else
            Except.ok (state, [("Set-Cookie", String.intercalate ", "
              (setCookieDirectives (jsToString (cid?.getD Json.null))
                (signData encryptionKey "true") (toUTCString now.addOneYear)))])
  | _ => Except.error ()

/-- Model of the `POST /authorize` route (google-handler.ts): it calls
`parseRedirectApproval` with no error handling, so an exception propagates;
it answers a plain 400 when the returned state has no truthy
`oauthReqInfo`, and otherwise issues the 302 redirect to Google carrying
the generated cookie headers.  The 302 branch abstracts the body of
`redirectToGoogle`: it does not model the InvalidCharacterError its
`btoa(JSON.stringify(oauthReqInfo))` raises when the approved state holds
characters above U+00FF — that fault is settled separately on the
`AuthRequest` serialization under claim C9 (`encodeStateParam`). -/
def postAuthorize (form : List (String × FormValue)) (encryptionKey : String) (now : JSDate) :
    Except Unit (HttpResp × List (String × String)) :=
  match parseRedirectApproval form encryptionKey now with
  | Except.error e => Except.error e
  | Except.ok (state, headers) =>
    if !(jsTruthyOpt (jsonGetField state "oauthReqInfo")) then
      Except.ok (⟨400, "Invalid request"⟩, [])
    else Except.ok (⟨302, ""⟩, headers)

/-- Decoder inverse to `strNibbles`: six little-endian base-16 digits per
character. -/
def nibblesToChars : List Nat → Option (List Char)
  | [] => some []
  | a :: b :: c :: d :: e :: f :: r =>
    (nibblesToChars r).map
      (fun l => Char.ofNat (a + 16 * b + 256 * c + 4096 * d + 65536 * e + 1048576 * f) :: l)
  | _ => none

/-- Precondition under which `clientIdAlreadyApproved` completes on a
successfully parsed cookie record: when both cookies are present and
non-empty, the signature value must contain some character other than a
line terminator (otherwise the regexp match inside `verifySignature`
returns `null` and the `!` assertion throws a TypeError). -/
def approvalNoFault (cookies : List (String × String)) (clientId : String) : Bool :=
  match cookieLookup cookies (approvedCookieName clientId),
        cookieLookup cookies (signatureCookieName clientId) with
  | some a, some s => a == "" || s == "" || s.data.any (fun c => !isLineTerm c)
  | _, _ => true

/-- Condition under which `parseRedirectApproval` throws, stated
declaratively: the form has no string-valued `state` field, or the field
is not valid JSON, or the parsed state has no truthy
`oauthReqInfo?.clientId`. -/
def approvalErrCond (form : List (String × FormValue)) : Bool :=
  match formGet form "state" with
  | some (FormValue.str s) =>
    match jsonParse s with
    | none => true
    | some st => !(jsTruthyOpt ((jsonGetField st "oauthReqInfo").bind
        (fun o => jsonGetField o "clientId")))
  | _ => true

/-- String-valued member of a JSON value, when present (used to observe
fields such as the identity email in witnesses). -/
def jsonStrField (j : Json) (k : String) : Option String :=
  match jsonGetField j k with
  | some (Json.str s) => some s
  | _ => none

/-- Reading an `AuthRequest` back out of a decoded JSON state value (the
three fields the serialization carries). -/
def authRequestOfJson (j : Json) : Option AuthRequest :=
  match jsonGetField j "clientId", jsonGetField j "scope", jsonGetField j "state" with
  | some (Json.str c), some (Json.str sc), some (Json.str st) => some ⟨c, sc, st⟩
  | _, _, _ => none

/-! ## Facts about the hex and signature pipeline -/

set_option maxRecDepth 4000 in
theorem hexDigitVal_hexDigitChar : ∀ v : Nat, v < 16 → hexDigitVal (hexDigitChar v) = some v := by
  decide

set_option maxRecDepth 4000 in
theorem isLineTerm_hexDigitChar : ∀ v : Nat, v < 16 → isLineTerm (hexDigitChar v) = false := by
  decide

set_option maxRecDepth 200000 in
theorem byteFromChunk_byteHexChars : ∀ b : Nat, b < 256 → byteFromChunk (byteHexChars b) = b := by
  decide

theorem dotChunks_flatMap_hex (bs : List Nat) (h : ∀ b ∈ bs, b < 256) :
    dotChunks (bs.flatMap byteHexChars) = bs.map byteHexChars := by
  induction bs with
  | nil => rfl
  | cons b r ih =>
    have hb : b < 256 := h b (List.mem_cons_self b r)
    have h1 : isLineTerm (hexDigitChar (b / 16)) = false := isLineTerm_hexDigitChar _ (by omega)
    have h2 : isLineTerm (hexDigitChar (b % 16)) = false := isLineTerm_hexDigitChar _ (by omega)
    have ih' := ih (fun x hx => h x (List.mem_cons_of_mem b hx))
    have hshape : (b :: r).flatMap byteHexChars =
        hexDigitChar (b / 16) :: hexDigitChar (b % 16) :: r.flatMap byteHexChars := rfl
    rw [hshape]
    simp only [dotChunks, h1, h2, Bool.false_eq_true, if_false, ih', List.map_cons]
    rfl

theorem charNibbles_mem_lt {x : Nat} {c : Char} (hx : x ∈ charNibbles c) : x < 16 := by
  simp [charNibbles] at hx
  rcases hx with h | h | h | h | h | h <;> omega

theorem strNibbles_mem_lt {x : Nat} {s : String} (hx : x ∈ strNibbles s) : x < 16 := by
  simp only [strNibbles, List.mem_flatMap] at hx
  obtain ⟨c, _, hc⟩ := hx
  exact charNibbles_mem_lt hc

theorem hmacBytes_mem_lt {b : Nat} {s m : String} (hb : b ∈ hmacBytes s m) : b < 256 := by
  rw [hmacBytes] at hb
  rcases List.mem_append.1 hb with h | h
  · have := strNibbles_mem_lt h; omega
  · rcases List.mem_cons.1 h with h | h
    · omega
    · have := strNibbles_mem_lt h; omega

theorem hmacBytes_ne_nil (s m : String) : hmacBytes s m ≠ [] := by
  rw [hmacBytes]; simp

theorem signData_data (s m : String) :
    (signData s m).data = (hmacBytes s m).flatMap byteHexChars := rfl

theorem verifySignature_signData (s1 s2 m : String) :
    verifySignature s2 (signData s1 m) m =
      some (decide (hmacBytes s1 m = hmacBytes s2 m)) := by
  rw [verifySignature, signData_data,
      dotChunks_flatMap_hex _ (fun b hb => hmacBytes_mem_lt hb)]
  rcases hbm : hmacBytes s1 m with _ | ⟨hd, tl⟩
  · exact absurd hbm (hmacBytes_ne_nil s1 m)
  · have hmap : List.map byteFromChunk (List.map byteHexChars (hd :: tl)) = hd :: tl := by
      rw [List.map_map]
      have harg : ∀ x ∈ hd :: tl, (byteFromChunk ∘ byteHexChars) x = id x := by
        intro x hx
        have hxlt : x < 256 := hmacBytes_mem_lt (hbm ▸ hx)
        simp [Function.comp, byteFromChunk_byteHexChars x hxlt]
      rw [List.map_congr_left harg, List.map_id]
    simp only [List.map_cons] at hmap ⊢
    exact congrArg some (decide_eq_decide.mpr (by rw [hmap]))

theorem sepByte_split :
    ∀ (a1 : List Nat) {b1 a2 b2 : List Nat}, (∀ v ∈ a1, v < 16) → (∀ v ∈ a2, v < 16) →
      a1 ++ 255 :: b1 = a2 ++ 255 :: b2 → a1 = a2 ∧ b1 = b2 := by
  intro a1
  induction a1 with
  | nil =>
    intro b1 a2 b2 _ h2 heq
    cases a2 with
    | nil => simpa using heq
    | cons y ys =>
      simp only [List.nil_append, List.cons_append, List.cons.injEq] at heq
      have : y < 16 := h2 y (List.mem_cons_self y ys)
      omega
  | cons x xs ih =>
    intro b1 a2 b2 h1 h2 heq
    cases a2 with
    | nil =>
      simp only [List.nil_append, List.cons_append, List.cons.injEq] at heq
      have : x < 16 := h1 x (List.mem_cons_self x xs)
      omega
    | cons y ys =>
      simp only [List.cons_append, List.cons.injEq] at heq
      obtain ⟨hxy, heq2⟩ := heq
      obtain ⟨ha, hb⟩ := ih (fun v hv => h1 v (List.mem_cons_of_mem x hv))
        (fun v hv => h2 v (List.mem_cons_of_mem y hv)) heq2
      exact ⟨by rw [hxy, ha], hb⟩

theorem char_toNat_lt (c : Char) : c.toNat < 1114112 := by
  have he : c.toNat = c.val.toNat := rfl
  rcases c.valid with h | h <;> omega

theorem nibblesToChars_flatMap (l : List Char) :
    nibblesToChars (l.flatMap charNibbles) = some l := by
  induction l with
  | nil => rfl
  | cons c r ih =>
    have hc := char_toNat_lt c
    have hshape : (c :: r).flatMap charNibbles =
        c.toNat % 16 :: c.toNat / 16 % 16 :: c.toNat / 256 % 16 :: c.toNat / 4096 % 16 ::
          c.toNat / 65536 % 16 :: c.toNat / 1048576 % 16 :: r.flatMap charNibbles := rfl
    rw [hshape]
    rw [show nibblesToChars (c.toNat % 16 :: c.toNat / 16 % 16 :: c.toNat / 256 % 16 ::
        c.toNat / 4096 % 16 :: c.toNat / 65536 % 16 :: c.toNat / 1048576 % 16 ::
        r.flatMap charNibbles) =
      (nibblesToChars (r.flatMap charNibbles)).map
        (fun l => Char.ofNat (c.toNat % 16 + 16 * (c.toNat / 16 % 16) +
          256 * (c.toNat / 256 % 16) + 4096 * (c.toNat / 4096 % 16) +
          65536 * (c.toNat / 65536 % 16) + 1048576 * (c.toNat / 1048576 % 16)) :: l) from rfl]
    rw [ih]
    have hrec : c.toNat % 16 + 16 * (c.toNat / 16 % 16) + 256 * (c.toNat / 256 % 16) +
        4096 * (c.toNat / 4096 % 16) + 65536 * (c.toNat / 65536 % 16) +
        1048576 * (c.toNat / 1048576 % 16) = c.toNat := by omega
    rw [hrec, Char.ofNat_toNat]
    rfl

theorem strNibbles_inj {s1 s2 : String} (h : strNibbles s1 = strNibbles s2) : s1 = s2 := by
  have h1 := nibblesToChars_flatMap s1.data
  have h2 := nibblesToChars_flatMap s2.data
  rw [show strNibbles s1 = s1.data.flatMap charNibbles from rfl,
      show strNibbles s2 = s2.data.flatMap charNibbles from rfl] at h
  rw [h, h2] at h1
  exact String.ext (Option.some.inj h1.symm)

theorem hmacBytes_secret_inj {s1 s2 m : String} (h : hmacBytes s1 m = hmacBytes s2 m) :
    s1 = s2 := by
  obtain ⟨ha, _⟩ := sepByte_split (strNibbles s1) (fun v hv => strNibbles_mem_lt hv)
    (fun v hv => strNibbles_mem_lt hv) h
  exact strNibbles_inj ha

theorem dotChunks_eq_nil_iff (cs : List Char) :
    dotChunks cs = [] ↔ ∀ c ∈ cs, isLineTerm c = true := by
  induction cs using dotChunks.induct with
  | case1 => simp [dotChunks]
  | case2 a ha => simp [dotChunks, ha]
  | case3 a ha => simp [dotChunks, ha]
  | case4 a b r ha ih => simp [dotChunks, ha, ih]
  | case5 a b r ha hb ih => simp [dotChunks, ha, hb]
  | case6 a b r ha hb ih => simp [dotChunks, ha, hb]

theorem verifySignature_isSome_iff (secret sig data : String) :
    (verifySignature secret sig data).isSome = true ↔
      ∃ c ∈ sig.data, isLineTerm c = false := by
  rw [verifySignature]
  rcases h : dotChunks sig.data with _ | ⟨c, cr⟩
  · have hall := (dotChunks_eq_nil_iff sig.data).1 h
    simp only [Option.isSome_none, Bool.false_eq_true, false_iff]
    intro ⟨x, hx, hxf⟩
    rw [hall x hx] at hxf
    exact absurd hxf (by simp)
  · have hne : dotChunks sig.data ≠ [] := by rw [h]; simp
    have hnall := mt (dotChunks_eq_nil_iff sig.data).2 hne
    push_neg at hnall
    obtain ⟨x, hx, hxne⟩ := hnall
    simp only [Option.isSome_some, true_iff]
    exact ⟨x, hx, by simpa using hxne⟩

/-! ## Claim C2 -/

/-- C2: for every secret and message, verifying the signature produced by
signing the message under the same secret succeeds, and for distinct
secrets the signature produced under one never verifies under the other. -/
theorem C2_sign_verify_roundtrip :
    (∀ s m, verifySignature s (signData s m) m = some true) ∧
    (∀ s1 s2 m, s1 ≠ s2 → verifySignature s2 (signData s1 m) m = some false) := by
  constructor
  · intro s m
    rw [verifySignature_signData]
    simp
  · intro s1 s2 m hne
    rw [verifySignature_signData]
    simp only [Option.some.injEq, decide_eq_false_iff_not]
    exact fun h => hne (hmacBytes_secret_inj h)

/-- C2 witness: the round trip at the secrets `"a"` and `"b"` and the
message `"x"`. -/
theorem C2_sign_verify_roundtrip_witness :
    verifySignature "a" (signData "a" "x") "x" = some true ∧
    verifySignature "b" (signData "a" "x") "x" = some false :=
  ⟨C2_sign_verify_roundtrip.1 "a" "x",
   C2_sign_verify_roundtrip.2 "a" "b" "x" (by decide)⟩

/-! ## Claim C3 -/

/-- C3 counterexample: on the empty signature string the claim demands a
`false` verdict, but `verifySignature` throws a TypeError (the regexp
match is `null` and the non-null assertion dereferences it), modelled as
`none`. -/
theorem C3_empty_signature_faults : verifySignature "k" "" "true" = none := rfl

/-- C3 amended: `verifySignature` returns a boolean — it never faults —
for every signature string containing at least one character other than a
line terminator, malformed hex included (malformed chunks are coerced via
NaN to byte 0 rather than rejected); it faults exactly on the strings with
no such character, e.g. the empty string. -/
theorem C3_verify_fault_characterization (secret sig data : String) :
    (verifySignature secret sig data).isSome = true ↔
      ∃ c ∈ sig.data, isLineTerm c = false :=
  verifySignature_isSome_iff secret sig data

/-! ## Claim C1 -/

/-- C1 counterexample: on the cookie header `a=%` both target cookies are
absent, so the claim demands `false`; but `decodeURIComponent("%")` throws
a URIError while the header is parsed, so the check faults (`none`). -/
theorem C1_malformed_header_faults :
    clientIdAlreadyApproved (some "a=%") "c" "k" = none := by decide

/-- C1 amended: a missing Cookie header yields `false`; and on any header
whose cookie values percent-decode (no URIError) and whose signature
cookie, when present alongside a non-empty approval cookie, contains some
non-line-terminator character (no TypeError), the check returns a boolean,
and returns `true` exactly when both cookies are present, the approval
value is the literal `"true"`, and the signature verifies under the secret
against the message `"true"`. -/
theorem C1_approval_check_characterization (clientId key : String) :
    clientIdAlreadyApproved none clientId key = some false ∧
    (∀ h cookies, parseCookieHeader h = some cookies →
      approvalNoFault cookies clientId = true →
      (clientIdAlreadyApproved (some h) clientId key).isSome = true ∧
      (clientIdAlreadyApproved (some h) clientId key = some true ↔
        ∃ a s, cookieLookup cookies (approvedCookieName clientId) = some a ∧
          cookieLookup cookies (signatureCookieName clientId) = some s ∧
          a = "true" ∧ verifySignature key s "true" = some true)) := by
  refine ⟨rfl, ?_⟩
  intro h cookies hparse hnf
  rw [approvalNoFault] at hnf
  have hunfold : clientIdAlreadyApproved (some h) clientId key =
      (match cookieLookup cookies (approvedCookieName clientId),
             cookieLookup cookies (signatureCookieName clientId) with
       | some a, some s =>
         if a = "" ∨ s = "" then some false
         else
           match verifySignature key s a with
           | none => none
           | some v => some (v && a == "true")
       | _, _ => some false) := by
    rw [show clientIdAlreadyApproved (some h) clientId key =
        (match parseCookieHeader h with
         | none => none
         | some cookies =>
           match cookieLookup cookies (approvedCookieName clientId),
                 cookieLookup cookies (signatureCookieName clientId) with
           | some a, some s =>
             if a = "" ∨ s = "" then some false
             else
               match verifySignature key s a with
               | none => none
               | some v => some (v && a == "true")
           | _, _ => some false) from rfl, hparse]
  rw [hunfold]
  rcases ha : cookieLookup cookies (approvedCookieName clientId) with _ | a
  · simp only [ha] at hnf ⊢
    refine ⟨rfl, ?_⟩
    simp
  · rcases hs : cookieLookup cookies (signatureCookieName clientId) with _ | s
    · simp only [ha, hs] at hnf ⊢
      refine ⟨rfl, ?_⟩
      simp
    · simp only [ha, hs] at hnf ⊢
      by_cases hemp : a = "" ∨ s = ""
      · rw [if_pos hemp]
        refine ⟨rfl, ?_⟩
        simp only [Option.some.injEq, Bool.false_eq_true, false_iff]
        rintro ⟨a', s', ha', hs', hat, hv⟩
        have haa : a = a' := ha'
        have hss : s = s' := hs'
        rcases hemp with he | he
        · rw [← haa, he] at hat
          exact absurd hat (by decide)
        · rw [← hss, he] at hv
          have hnone : verifySignature key "" "true" = none := rfl
          rw [hnone] at hv
          exact absurd hv (by simp)
      · rw [if_neg hemp]
        push_neg at hemp
        obtain ⟨hane, hsne⟩ := hemp
        have hnft : (s.data.any fun c => !isLineTerm c) = true := by
          rw [Bool.or_eq_true, Bool.or_eq_true] at hnf
          rcases hnf with (h' | h') | h'
          · exact absurd (eq_of_beq h') hane
          · exact absurd (eq_of_beq h') hsne
          · exact h'
        have hex : ∃ c ∈ s.data, isLineTerm c = false := by
          rw [List.any_eq_true] at hnft
          obtain ⟨c, hc, hcl⟩ := hnft
          exact ⟨c, hc, by simpa using hcl⟩
        have hvs : (verifySignature key s a).isSome = true :=
          (verifySignature_isSome_iff key s a).2 hex
        rcases hv : verifySignature key s a with _ | b
        · rw [hv] at hvs
          simp at hvs
        · refine ⟨rfl, ?_⟩
          by_cases hat : a = "true"
          · subst hat
            constructor
            · intro hres
              have hres' : some (b && ("true" == "true")) = some true := hres
              have hb : b = true := by
                have hinj := Option.some.inj hres'
                simpa using hinj
              refine ⟨"true", s, rfl, rfl, rfl, ?_⟩
              rw [← hb]
              exact hv
            · rintro ⟨a', s', ha', hs', hat', hv'⟩
              have hss : s = s' := Option.some.inj hs'
              rw [← hss] at hv'
              rw [hv] at hv'
              have hb : b = true := Option.some.inj hv'
              show some (b && ("true" == "true")) = some true
              rw [hb]
              rfl
          · constructor
            · intro hres
              have hres' : some (b && (a == "true")) = some true := hres
              have hinj := Option.some.inj hres'
              rw [Bool.and_eq_true] at hinj
              exact absurd (by simpa using hinj.2) hat
            · rintro ⟨a', s', ha', hs', hat', hv'⟩
              have haa : a = a' := Option.some.inj ha'
              rw [← haa] at hat'
              exact absurd hat' hat

/-- C1 witness: the amended theorem applied to a header carrying a valid
approval-cookie pair for client `c` under the secret `k`. -/
theorem C1_approval_check_witness :
    ∃ cookies,
      parseCookieHeader
          ("client_c_approved=true; client_c_signature=" ++ signData "k" "true") =
        some cookies ∧
      approvalNoFault cookies "c" = true ∧
      clientIdAlreadyApproved
          (some ("client_c_approved=true; client_c_signature=" ++ signData "k" "true"))
          "c" "k" = some true := by
  refine ⟨[("client_c_approved", "true"), ("client_c_signature", signData "k" "true")],
    by decide, by decide, ?_⟩
  have h := ((C1_approval_check_characterization "c" "k").2
    ("client_c_approved=true; client_c_signature=" ++ signData "k" "true")
    [("client_c_approved", "true"), ("client_c_signature", signData "k" "true")]
    (by decide) (by decide)).2
  exact h.mpr ⟨"true", signData "k" "true", by decide, by decide, rfl, by decide⟩

/-! ## Claim C7 -/

/-- C7: the access check permits every login when the allow-list is empty;
with a non-empty allow-list it permits exactly the exact, case-sensitive
members (illustrated on the allow-list `{"alice"}`); the repository's
configured function behaves accordingly on its own non-empty list. -/
theorem C7_allow_list_semantics :
    (∀ u, checkUserIsAllowedWith [] u = true) ∧
    (∀ (allowed : List String) u, allowed ≠ [] →
      (checkUserIsAllowedWith allowed u = true ↔ u ∈ allowed)) ∧
    (∀ u, checkUserIsAllowed u = true ↔ u ∈ ALLOWED_USERNAMES) ∧
    checkUserIsAllowedWith ["alice"] "alice" = true ∧
    checkUserIsAllowedWith ["alice"] "Alice" = false ∧
    checkUserIsAllowedWith ["alice"] "alice2" = false := by
  have hgen : ∀ (allowed : List String) u, allowed ≠ [] →
      (checkUserIsAllowedWith allowed u = true ↔ u ∈ allowed) := by
    intro allowed u hne
    rw [checkUserIsAllowedWith, if_neg (fun hl => hne (List.length_eq_zero.mp hl))]
    exact ⟨fun h => List.elem_iff.mp h, fun h => List.elem_iff.mpr h⟩
  exact ⟨fun u => rfl, hgen, fun u => hgen ALLOWED_USERNAMES u (by decide),
    by decide, by decide, by decide⟩

/-- C7 witness: the configured allow-list admits `leonchike` and rejects
`eve`. -/
theorem C7_allow_list_semantics_witness :
    checkUserIsAllowed "leonchike" = true ∧ checkUserIsAllowed "eve" = false := by
  constructor
  · exact (C7_allow_list_semantics.2.1 ALLOWED_USERNAMES "leonchike" (by decide)).mpr
      (by decide)
  · cases hb : checkUserIsAllowed "eve"
    · rfl
    · exact absurd ((C7_allow_list_semantics.2.1 ALLOWED_USERNAMES "eve" (by decide)).mp hb)
        (by decide)

/-! ## Facts about `parseRedirectApproval` -/

theorem strAppend_assoc (a b c : String) : a ++ b ++ c = a ++ (b ++ c) := by
  apply String.ext
  rw [String.data_append, String.data_append, String.data_append, String.data_append,
    List.append_assoc]

theorem isNullJson_true {j : Json} (h : isNullJson j = true) : j = Json.null := by
  cases j <;> simp [isNullJson] at h ⊢

/-- Success shape of `parseRedirectApproval`: the returned state is the
parsed form field, and the headers are the joined cookie directives for
the coerced client id. -/
theorem parseRedirectApproval_ok_shape (form : List (String × FormValue)) (key : String)
    (now : JSDate) (st : Json) (headers : List (String × String))
    (h : parseRedirectApproval form key now = Except.ok (st, headers)) :
    ∃ s, formGet form "state" = some (FormValue.str s) ∧ jsonParse s = some st ∧
      headers = [("Set-Cookie", String.intercalate ", "
        (setCookieDirectives
          (jsToString (((jsonGetField st "oauthReqInfo").bind
            (fun o => jsonGetField o "clientId")).getD Json.null))
          (signData key "true") (toUTCString now.addOneYear)))] := by
  have hu : parseRedirectApproval form key now = (match formGet form "state" with
      | some (FormValue.str stateStr) =>
        if stateStr = "" then Except.error ()
        else
          match jsonParse stateStr with
          | none => Except.error ()
          | some state =>
            if isNullJson state then Except.error ()
            else
              let cid? := (jsonGetField state "oauthReqInfo").bind
                (fun o => jsonGetField o "clientId")
              if !(jsTruthyOpt cid?) then Except.error ()
              else
                Except.ok (state, [("Set-Cookie", String.intercalate ", "
                  (setCookieDirectives (jsToString (cid?.getD Json.null))
                    (signData key "true") (toUTCString now.addOneYear)))])
      | _ => Except.error ()) := rfl
  rw [hu] at h
  rcases hf : formGet form "state" with _ | fv
  · simp only [hf] at h
    exact Except.noConfusion h
  · cases fv with
    | file =>
      simp only [hf] at h
      exact Except.noConfusion h
    | str s =>
      simp only [hf] at h
      by_cases hse : s = ""
      · rw [if_pos hse] at h
        exact Except.noConfusion h
      · rw [if_neg hse] at h
        rcases hj : jsonParse s with _ | j
        · simp only [hj] at h
          exact Except.noConfusion h
        · simp only [hj] at h
          cases hn : isNullJson j
          · rw [hn] at h
            simp only [Bool.false_eq_true, if_false] at h
            cases hb : jsTruthyOpt ((jsonGetField j "oauthReqInfo").bind
              (fun o => jsonGetField o "clientId"))
            · rw [hb] at h
              simp only [Bool.not_false, if_true] at h
              exact Except.noConfusion h
            · rw [hb] at h
              simp only [Bool.not_true, Bool.false_eq_true, if_false] at h
              have hinj := Except.ok.inj h
              have hst : j = st := congrArg Prod.fst hinj
              have hhd := congrArg Prod.snd hinj
              subst hst
              exact ⟨s, rfl, hj, hhd.symm⟩
          · rw [hn] at h
            simp only [if_true] at h
            exact Except.noConfusion h

/-- Error characterization of `parseRedirectApproval`: it throws exactly
under `approvalErrCond`. -/
theorem parseRedirectApproval_error_iff (form : List (String × FormValue)) (key : String)
    (now : JSDate) :
    ((parseRedirectApproval form key now).toOption = none ↔ approvalErrCond form = true) := by
  have hu : parseRedirectApproval form key now = (match formGet form "state" with
      | some (FormValue.str stateStr) =>
        if stateStr = "" then Except.error ()
        else
          match jsonParse stateStr with
          | none => Except.error ()
          | some state =>
            if isNullJson state then Except.error ()
            else
              let cid? := (jsonGetField state "oauthReqInfo").bind
                (fun o => jsonGetField o "clientId")
              if !(jsTruthyOpt cid?) then Except.error ()
              else
                Except.ok (state, [("Set-Cookie", String.intercalate ", "
                  (setCookieDirectives (jsToString (cid?.getD Json.null))
                    (signData key "true") (toUTCString now.addOneYear)))])
      | _ => Except.error ()) := rfl
  have hc : approvalErrCond form = (match formGet form "state" with
      | some (FormValue.str s) =>
        match jsonParse s with
        | none => true
        | some st => !(jsTruthyOpt ((jsonGetField st "oauthReqInfo").bind
            (fun o => jsonGetField o "clientId")))
      | _ => true) := rfl
  rw [hu, hc]
  rcases hf : formGet form "state" with _ | fv
  · simp [hf, Except.toOption]
  · cases fv with
    | file => simp [hf, Except.toOption]
    | str s =>
      by_cases hse : s = ""
      · have hpe : jsonParse "" = none := rfl
        subst hse
        simp [hf, hpe, Except.toOption]
      · rcases hj : jsonParse s with _ | j
        · simp [hf, hse, hj, Except.toOption]
        · cases hn : isNullJson j
          · cases hb : jsTruthyOpt ((jsonGetField j "oauthReqInfo").bind
              (fun o => jsonGetField o "clientId"))
            · simp [hf, hse, hj, hn, hb, Except.toOption]
            · simp [hf, hse, hj, hn, hb, Except.toOption]
          · obtain rfl := isNullJson_true hn
            simp [hf, hse, hj, jsonGetField, jsTruthyOpt, Except.toOption]

/-! ## Claim C8 -/

/-- C8: on consent approval `parseRedirectApproval` emits exactly two
Set-Cookie directives — the `client_{clientId}_approved=true` flag and the
`client_{clientId}_signature` — each scoped to `Path=/` and carrying
`HttpOnly`, `Secure`, `SameSite=Strict` and an expiry one year from
issuance; no other code path of the embedded flow constructs Set-Cookie
headers. -/
theorem C8_set_cookie_directives (form : List (String × FormValue)) (key : String)
    (now : JSDate) (st : Json) (headers : List (String × String))
    (h : parseRedirectApproval form key now = Except.ok (st, headers)) :
    ∃ cid,
      headers = [("Set-Cookie", String.intercalate ", "
        (setCookieDirectives cid (signData key "true") (toUTCString now.addOneYear)))] ∧
      (setCookieDirectives cid (signData key "true") (toUTCString now.addOneYear)).length = 2 ∧
      (∀ d ∈ setCookieDirectives cid (signData key "true") (toUTCString now.addOneYear),
        ∃ p, d = p ++ "; Path=/; HttpOnly; Secure; SameSite=Strict; Expires=" ++
          toUTCString now.addOneYear) ∧
      setCookieDirectives cid (signData key "true") (toUTCString now.addOneYear) =
        [approvedCookieName cid ++
           "=true; Path=/; HttpOnly; Secure; SameSite=Strict; Expires=" ++
           toUTCString now.addOneYear,
         signatureCookieName cid ++ "=" ++ signData key "true" ++
           "; Path=/; HttpOnly; Secure; SameSite=Strict; Expires=" ++
           toUTCString now.addOneYear] := by
  obtain ⟨s, _, _, hhd⟩ := parseRedirectApproval_ok_shape form key now st headers h
  refine ⟨jsToString (((jsonGetField st "oauthReqInfo").bind
    (fun o => jsonGetField o "clientId")).getD Json.null), hhd, rfl, ?_, rfl⟩
  intro d hd
  rw [setCookieDirectives] at hd
  rcases List.mem_cons.1 hd with hd1 | hd2
  · refine ⟨approvedCookieName (jsToString (((jsonGetField st "oauthReqInfo").bind
      (fun o => jsonGetField o "clientId")).getD Json.null)) ++ "=true", ?_⟩
    rw [hd1,
      show ("=true; Path=/; HttpOnly; Secure; SameSite=Strict; Expires=" : String) =
        "=true" ++ "; Path=/; HttpOnly; Secure; SameSite=Strict; Expires=" from rfl,
      ← strAppend_assoc]
  · rcases List.mem_cons.1 hd2 with hd1 | hd3
    · exact ⟨signatureCookieName (jsToString (((jsonGetField st "oauthReqInfo").bind
        (fun o => jsonGetField o "clientId")).getD Json.null)) ++ "=" ++
        signData key "true", hd1⟩
    · exact absurd hd3 (List.not_mem_nil d)

/-- Bridge from an observed `toOption` value back to the `Except`. -/
theorem except_eq_ok_of_toOption {ε α : Type} {e : Except ε α} {x : α}
    (h : e.toOption = some x) : e = Except.ok x := by
  cases e with
  | error err => simp [Except.toOption] at h
  | ok y => simp [Except.toOption] at h; rw [h]

/-- C8 witness: a concrete approved form submission for client id `abc`
under the secret `k`. -/
theorem C8_set_cookie_directives_witness :
    ∃ st headers cid,
      parseRedirectApproval
          [("state", FormValue.str "\x7b\"oauthReqInfo\":\x7b\"clientId\":\"abc\"\x7d\x7d")]
          "k" ⟨2025, "D"⟩ = Except.ok (st, headers) ∧
      headers = [("Set-Cookie", String.intercalate ", "
        (setCookieDirectives cid (signData "k" "true")
          (toUTCString (JSDate.addOneYear ⟨2025, "D"⟩))))] := by
  have hsome : (parseRedirectApproval
      [("state", FormValue.str "\x7b\"oauthReqInfo\":\x7b\"clientId\":\"abc\"\x7d\x7d")]
      "k" ⟨2025, "D"⟩).toOption.isSome = true := by decide
  obtain ⟨p, hp⟩ := Option.isSome_iff_exists.mp hsome
  have hpr := except_eq_ok_of_toOption hp
  obtain ⟨cid, hhd, _⟩ := C8_set_cookie_directives _ _ _ p.1 p.2 (by rw [hpr])
  exact ⟨p.1, p.2, cid, by rw [hpr], hhd⟩

/-! ## Claim C10 -/

/-- C10: `parseRedirectApproval` throws exactly when the form has no
string-valued `state` field, the field is not valid JSON, or the parsed
state lacks a truthy `oauthReqInfo?.clientId`; on success it returns the
parsed state unchanged together with the Set-Cookie headers for that
client id; and the `POST /authorize` route propagates the thrown error
unchanged (it installs no error handling and produces no 4xx for it). -/
theorem C10_approval_error_contract (form : List (String × FormValue)) (key : String)
    (now : JSDate) :
    ((parseRedirectApproval form key now).toOption = none ↔ approvalErrCond form = true) ∧
    (∀ st headers, parseRedirectApproval form key now = Except.ok (st, headers) →
      ∃ s, formGet form "state" = some (FormValue.str s) ∧ jsonParse s = some st ∧
        headers = [("Set-Cookie", String.intercalate ", "
          (setCookieDirectives
            (jsToString (((jsonGetField st "oauthReqInfo").bind
              (fun o => jsonGetField o "clientId")).getD Json.null))
            (signData key "true") (toUTCString now.addOneYear)))]) ∧
    (∀ e, parseRedirectApproval form key now = Except.error e →
      postAuthorize form key now = Except.error e) := by
  refine ⟨parseRedirectApproval_error_iff form key now,
    fun st headers h => parseRedirectApproval_ok_shape form key now st headers h,
    fun e he => ?_⟩
  rw [show postAuthorize form key now = (match parseRedirectApproval form key now with
    | Except.error e => Except.error e
    | Except.ok (state, headers) =>
      if !(jsTruthyOpt (jsonGetField state "oauthReqInfo")) then
        Except.ok (⟨400, "Invalid request"⟩, [])
      else Except.ok (⟨302, ""⟩, headers)) from rfl, he]

/-- C10 witness: a form without a `state` field throws and the POST route
propagates the error; a well-formed form succeeds with the parsed state. -/
theorem C10_approval_error_contract_witness :
    (parseRedirectApproval [] "k" ⟨2025, "D"⟩).toOption = none ∧
    postAuthorize [] "k" ⟨2025, "D"⟩ = Except.error () ∧
    ∃ s st, formGet [("state",
          FormValue.str "\x7b\"oauthReqInfo\":\x7b\"clientId\":\"abc\"\x7d\x7d")]
        "state" = some (FormValue.str s) ∧
      jsonParse s = some st := by
  refine ⟨(C10_approval_error_contract [] "k" ⟨2025, "D"⟩).1.mpr (by decide),
    (C10_approval_error_contract [] "k" ⟨2025, "D"⟩).2.2 () rfl, ?_⟩
  have hsome : (parseRedirectApproval
      [("state", FormValue.str "\x7b\"oauthReqInfo\":\x7b\"clientId\":\"abc\"\x7d\x7d")]
      "k" ⟨2025, "D"⟩).toOption.isSome = true := by decide
  obtain ⟨p, hp⟩ := Option.isSome_iff_exists.mp hsome
  have hpr := except_eq_ok_of_toOption hp
  obtain ⟨s, hf, hj, _⟩ := (C10_approval_error_contract
    [("state", FormValue.str "\x7b\"oauthReqInfo\":\x7b\"clientId\":\"abc\"\x7d\x7d")]
    "k" ⟨2025, "D"⟩).2.1 p.1 p.2 (by rw [hpr])
  exact ⟨s, p.1, hf, hj⟩


/-! ## Claim C4 -/

/-- C4 counterexample: a `GET /callback` with the state parameter missing
reaches `atob` as the coerced string `"undefined"`, which is not valid
base64, so the handler throws (an InvalidCharacterError, handled by the
framework as a 500) instead of returning the claimed 400 InvalidState
response. -/
theorem C4_missing_state_faults :
    (googleCallback ⟨⟨true, ""⟩, ⟨true, ""⟩, ""⟩ ⟨none, none⟩).toOption = none := by decide

/-- C4 amended: when the state decodes to a non-null JSON value without a
truthy `clientId`, the handler answers 400 `Invalid state` without minting
a token; when the state is missing, not valid base64, not valid JSON, or
decodes to `null`, the handler instead raises a fault (no 400 is
produced). -/
theorem C4_invalid_state_contract (env : CallbackEnv) (st : Option String)
    (code : Option String) :
    (decodeStateParam st = none → googleCallback env ⟨st, code⟩ = Except.error ()) ∧
    (∀ j, decodeStateParam st = some j → isNullJson j = true →
      googleCallback env ⟨st, code⟩ = Except.error ()) ∧
    (∀ j, decodeStateParam st = some j → isNullJson j = false →
      jsTruthyOpt (jsonGetField j "clientId") = false →
      googleCallback env ⟨st, code⟩ = Except.ok (⟨400, "Invalid state"⟩, false)) := by
  refine ⟨fun h => ?_, fun j hdec hnull => ?_, fun j hdec hnull htr => ?_⟩
  · simp only [googleCallback, h]
  · simp only [googleCallback, hdec, hnull, if_true]
  · simp only [googleCallback, hdec, hnull, htr, Bool.not_false, Bool.false_eq_true,
      if_false, if_true]

/-- C4 witness: the amended theorem applied to the state `"e30="` (base64
of the JSON text of an empty object), which decodes but has no client id. -/
theorem C4_invalid_state_contract_witness :
    googleCallback ⟨⟨true, ""⟩, ⟨true, ""⟩, ""⟩ ⟨some "e30=", none⟩ =
      Except.ok (⟨400, "Invalid state"⟩, false) := by
  have hsome : (decodeStateParam (some "e30=")).isSome = true := by decide
  obtain ⟨j, hj⟩ := Option.isSome_iff_exists.mp hsome
  have hn : isNullJson ((decodeStateParam (some "e30=")).getD Json.null) = false := by decide
  have ht : jsTruthyOpt
      (jsonGetField ((decodeStateParam (some "e30=")).getD Json.null) "clientId") = false := by
    decide
  rw [hj, Option.getD_some] at hn ht
  exact (C4_invalid_state_contract ⟨⟨true, ""⟩, ⟨true, ""⟩, ""⟩ (some "e30=") none).2.2
    j hj hn ht

/-! ## Claim C5 -/

/-- C5 counterexample: at `?code=` the code parameter is present but
empty; the JS falsy guard `if (!code)` catches it, so the handler answers
400 `Missing authorization code` — the upstream exchange, which would fail
here, is never attempted, refuting the claim's present-code → 500 branch. -/
theorem C5_empty_code_400 :
    googleCallback ⟨⟨false, "secret upstream detail"⟩, ⟨true, ""⟩, ""⟩
        ⟨some "eyJjbGllbnRJZCI6ImFiYyJ9", some ""⟩ =
      Except.ok (⟨400, "Missing authorization code"⟩, false) :=
  except_eq_ok_of_toOption (by decide)

/-- C5 (amended): with a well-formed state, an absent or present-but-empty
`code` query parameter yields the 400 `Missing authorization code`
response (the guard is the JS falsy test `!code`, which catches the empty
string), and a nonempty code with a failed upstream token exchange yields
a 500 whose body is the fixed literal `Failed to exchange authorization
code` — independent of the upstream response body, which is never read on
that path — and in no case is a token minted. -/
theorem C5_token_exchange_errors (env : CallbackEnv) (st : Option String) (j : Json)
    (hdec : decodeStateParam st = some j) (hnull : isNullJson j = false)
    (htr : jsTruthyOpt (jsonGetField j "clientId") = true) :
    (googleCallback env ⟨st, none⟩ =
      Except.ok (⟨400, "Missing authorization code"⟩, false)) ∧
    (googleCallback env ⟨st, some ""⟩ =
      Except.ok (⟨400, "Missing authorization code"⟩, false)) ∧
    (∀ code, code ≠ "" → env.tokenResp.ok = false →
      googleCallback env ⟨st, some code⟩ =
        Except.ok (⟨500, "Failed to exchange authorization code"⟩, false)) := by
  refine ⟨?_, ?_, ?_⟩
  · simp only [googleCallback, hdec, hnull, htr, Bool.not_true, Bool.false_eq_true, if_false]
    rfl
  · simp only [googleCallback, hdec, hnull, htr, Bool.not_true, Bool.false_eq_true, if_false]
    rfl
  · intro code hne hko
    simp only [googleCallback, hdec, hnull, htr, Bool.not_true, Bool.not_false,
      Bool.false_eq_true, if_false, if_true, fetchGoogleAccessToken, Option.getD_some,
      if_neg hne, hko]

/-- C5 witness: the state `"eyJjbGllbnRJZCI6ImFiYyJ9"` (base64 of a JSON
object with client id `abc`); the upstream body holds an error detail that
never reaches the response. -/
theorem C5_token_exchange_errors_witness :
    googleCallback ⟨⟨false, "secret upstream detail"⟩, ⟨true, ""⟩, ""⟩
        ⟨some "eyJjbGllbnRJZCI6ImFiYyJ9", none⟩ =
      Except.ok (⟨400, "Missing authorization code"⟩, false) ∧
    googleCallback ⟨⟨false, "secret upstream detail"⟩, ⟨true, ""⟩, ""⟩
        ⟨some "eyJjbGllbnRJZCI6ImFiYyJ9", some ""⟩ =
      Except.ok (⟨400, "Missing authorization code"⟩, false) ∧
    googleCallback ⟨⟨false, "secret upstream detail"⟩, ⟨true, ""⟩, ""⟩
        ⟨some "eyJjbGllbnRJZCI6ImFiYyJ9", some "c"⟩ =
      Except.ok (⟨500, "Failed to exchange authorization code"⟩, false) := by
  have hsome : (decodeStateParam (some "eyJjbGllbnRJZCI6ImFiYyJ9")).isSome = true := by decide
  obtain ⟨j, hj⟩ := Option.isSome_iff_exists.mp hsome
  have hn : isNullJson
      ((decodeStateParam (some "eyJjbGllbnRJZCI6ImFiYyJ9")).getD Json.null) = false := by decide
  have ht : jsTruthyOpt (jsonGetField
      ((decodeStateParam (some "eyJjbGllbnRJZCI6ImFiYyJ9")).getD Json.null) "clientId") =
      true := by decide
  rw [hj, Option.getD_some] at hn ht
  exact ⟨(C5_token_exchange_errors _ _ j hj hn ht).1,
    (C5_token_exchange_errors _ _ j hj hn ht).2.1,
    (C5_token_exchange_errors _ _ j hj hn ht).2.2 "c" (by decide) rfl⟩

/-! ## Claim C6 -/

theorem jsonStrField_some {j : Json} {k s : String} (h : jsonStrField j k = some s) :
    jsonGetField j k = some (Json.str s) := by
  rw [jsonStrField] at h
  rcases hg : jsonGetField j k with _ | v
  · rw [hg] at h
    simp at h
  · rw [hg] at h
    cases v with
    | str s2 => simp at h; rw [h]
    | null => simp at h
    | bool b => simp at h
    | num l => simp at h
    | arr a => simp at h
    | obj o => simp at h

/-- C6: when the flow reaches the identity fetch (a nonempty code that
passed the falsy guard and a successful exchange) and the fetched identity
yields a login the Access Policy rejects, the callback returns the
rendered access-denied page — status 403, body containing the literal
login — and `completeAuthorization` is never invoked: no token is minted
and no session/props record is created (the minted flag of the model is
false). -/
theorem C6_denied_login (env : CallbackEnv) (st : Option String) (code : String) (j uj : Json)
    (email : String)
    (hdec : decodeStateParam st = some j) (hnull : isNullJson j = false)
    (htr : jsTruthyOpt (jsonGetField j "clientId") = true)
    (hcode : code ≠ "")
    (htok : env.tokenResp.ok = true)
    (htjson : ∃ tj, jsonParse env.tokenResp.body = some tj ∧ isNullJson tj = false)
    (huok : env.userResp.ok = true)
    (hujson : jsonParse env.userResp.body = some uj)
    (hemail : jsonGetField uj "email" = some (Json.str email))
    (hdeny : checkUserIsAllowed ⟨email.data.takeWhile (fun c => c ≠ '@')⟩ = false) :
    googleCallback env ⟨st, some code⟩ =
      Except.ok (getAuthDeniedResponse ⟨email.data.takeWhile (fun c => c ≠ '@')⟩, false) ∧
    (getAuthDeniedResponse ⟨email.data.takeWhile (fun c => c ≠ '@')⟩).status = 403 ∧
    ∃ p q, (getAuthDeniedResponse ⟨email.data.takeWhile (fun c => c ≠ '@')⟩).body =
      p ++ (⟨email.data.takeWhile (fun c => c ≠ '@')⟩ : String) ++ q := by
  obtain ⟨tj, htj, htjn⟩ := htjson
  refine ⟨?_, rfl, deniedHtmlA, deniedHtmlB, rfl⟩
  simp only [googleCallback, hdec, hnull, htr, Bool.not_true, Bool.not_false,
    Bool.false_eq_true, if_false, if_true, fetchGoogleAccessToken, Option.getD_some,
    if_neg hcode, htok, htj, htjn, huok, hujson, hemail, hdeny]

/-- C6 witness: identity email `eve@x.com` (login `eve`) against the
configured allow-list; the flow answers 403 naming `eve` and mints
nothing. -/
theorem C6_denied_login_witness :
    googleCallback
        ⟨⟨true, "\x7b\"access_token\":\"t\"\x7d"⟩,
         ⟨true, "\x7b\"email\":\"eve@x.com\"\x7d"⟩, ""⟩
        ⟨some "eyJjbGllbnRJZCI6ImFiYyJ9", some "c"⟩ =
      Except.ok (getAuthDeniedResponse "eve", false) ∧
    (getAuthDeniedResponse "eve").status = 403 ∧
    ∃ p q, (getAuthDeniedResponse "eve").body = p ++ "eve" ++ q := by
  have hsome : (decodeStateParam (some "eyJjbGllbnRJZCI6ImFiYyJ9")).isSome = true := by decide
  obtain ⟨j, hj⟩ := Option.isSome_iff_exists.mp hsome
  have hn : isNullJson
      ((decodeStateParam (some "eyJjbGllbnRJZCI6ImFiYyJ9")).getD Json.null) = false := by decide
  have ht : jsTruthyOpt (jsonGetField
      ((decodeStateParam (some "eyJjbGllbnRJZCI6ImFiYyJ9")).getD Json.null) "clientId") =
      true := by decide
  rw [hj, Option.getD_some] at hn ht
  have htsome : (jsonParse "\x7b\"access_token\":\"t\"\x7d").isSome = true := by decide
  obtain ⟨tj, htj⟩ := Option.isSome_iff_exists.mp htsome
  have htjn : isNullJson
      ((jsonParse "\x7b\"access_token\":\"t\"\x7d").getD Json.null) = false := by decide
  rw [htj, Option.getD_some] at htjn
  have husome : (jsonParse "\x7b\"email\":\"eve@x.com\"\x7d").isSome = true := by decide
  obtain ⟨uj, huj⟩ := Option.isSome_iff_exists.mp husome
  have hemail0 : jsonStrField
      ((jsonParse "\x7b\"email\":\"eve@x.com\"\x7d").getD Json.null) "email" =
      some "eve@x.com" := by decide
  rw [huj, Option.getD_some] at hemail0
  have hemail := jsonStrField_some hemail0
  have hlogin : (⟨("eve@x.com" : String).data.takeWhile (fun c => c ≠ '@')⟩ : String) =
      "eve" := by decide
  have hres := C6_denied_login
    ⟨⟨true, "\x7b\"access_token\":\"t\"\x7d"⟩,
     ⟨true, "\x7b\"email\":\"eve@x.com\"\x7d"⟩, ""⟩
    (some "eyJjbGllbnRJZCI6ImFiYyJ9") "c" j uj "eve@x.com"
    hj hn ht (by decide) rfl ⟨tj, htj, htjn⟩ rfl huj hemail (by rw [hlogin]; decide)
  rw [hlogin] at hres
  exact hres

/-! ## Facts about base64 (`btoa` / `atob`) -/

set_option maxRecDepth 20000 in
theorem b64Val_b64Char : ∀ v : Nat, v < 64 → b64Val (b64Char v) = some v := by decide

set_option maxRecDepth 20000 in
theorem asciiWs_b64Char : ∀ v : Nat, v < 64 → asciiWs (b64Char v) = false := by decide

set_option maxRecDepth 20000 in
theorem b64Char_ne_pad : ∀ v : Nat, v < 64 → b64Char v ≠ '=' := by decide

theorem b64EncodeBytes_mem {c : Char} : ∀ {bs : List Nat}, c ∈ b64EncodeBytes bs →
    (∀ b ∈ bs, b < 256) → (∃ v, v < 64 ∧ c = b64Char v) ∨ c = '=' := by
  intro bs
  induction bs using b64EncodeBytes.induct with
  | case1 =>
    intro h _
    simp [b64EncodeBytes] at h
  | case2 b1 =>
    intro h hb
    have h1 : b1 < 256 := hb _ (by simp)
    simp [b64EncodeBytes] at h
    rcases h with h | h | h
    · exact Or.inl ⟨b1 / 4, by omega, h⟩
    · exact Or.inl ⟨b1 % 4 * 16, by omega, h⟩
    · exact Or.inr h
  | case3 b1 b2 =>
    intro h hb
    have h1 : b1 < 256 := hb _ (by simp)
    have h2 : b2 < 256 := hb _ (by simp)
    simp [b64EncodeBytes] at h
    rcases h with h | h | h | h
    · exact Or.inl ⟨b1 / 4, by omega, h⟩
    · exact Or.inl ⟨b1 % 4 * 16 + b2 / 16, by omega, h⟩
    · exact Or.inl ⟨b2 % 16 * 4, by omega, h⟩
    · exact Or.inr h
  | case4 b1 b2 b3 r ih =>
    intro h hb
    have h1 : b1 < 256 := hb _ (by simp)
    have h2 : b2 < 256 := hb _ (by simp)
    have h3 : b3 < 256 := hb _ (by simp)
    simp [b64EncodeBytes] at h
    rcases h with h | h | h | h | h
    · exact Or.inl ⟨b1 / 4, by omega, h⟩
    · exact Or.inl ⟨b1 % 4 * 16 + b2 / 16, by omega, h⟩
    · exact Or.inl ⟨b2 % 16 * 4 + b3 / 64, by omega, h⟩
    · exact Or.inl ⟨b3 % 64, by omega, h⟩
    · exact ih h (fun b hbm => hb b (by simp [hbm]))

theorem filter_b64EncodeBytes (bs : List Nat) (hb : ∀ b ∈ bs, b < 256) :
    (b64EncodeBytes bs).filter (fun c => !asciiWs c) = b64EncodeBytes bs := by
  rw [List.filter_eq_self]
  intro c hc
  rcases b64EncodeBytes_mem hc hb with ⟨v, hv, rfl⟩ | rfl
  · simp [asciiWs_b64Char v hv]
  · decide

theorem length_b64EncodeBytes_mod (bs : List Nat) : (b64EncodeBytes bs).length % 4 = 0 := by
  induction bs using b64EncodeBytes.induct with
  | case1 => simp [b64EncodeBytes]
  | case2 b1 => simp [b64EncodeBytes]
  | case3 b1 b2 => simp [b64EncodeBytes]
  | case4 b1 b2 b3 r ih =>
    simp only [b64EncodeBytes, List.length_cons]
    omega

theorem b64EncodeBytes_length_ge (b : Nat) (r : List Nat) :
    4 ≤ (b64EncodeBytes (b :: r)).length := by
  rcases r with _ | ⟨b2, r2⟩
  · simp [b64EncodeBytes]
  · rcases r2 with _ | ⟨b3, r3⟩
    · simp [b64EncodeBytes]
    · simp [b64EncodeBytes]

theorem stripBase64Pad_append (a b : List Char) (hb : 2 ≤ b.length) :
    stripBase64Pad (a ++ b) = a ++ stripBase64Pad b := by
  rcases hbr : b.reverse with _ | ⟨e1, t⟩
  · have hlb : b.length = 0 := by
      have h0 := congrArg List.length hbr
      rw [List.length_reverse] at h0
      simpa using h0
    omega
  · rcases t with _ | ⟨e2, rb⟩
    · have hlb : b.length = 1 := by
        have h0 := congrArg List.length hbr
        rw [List.length_reverse] at h0
        simpa using h0
      omega
    · have hab : (a ++ b).reverse = e1 :: e2 :: (rb ++ a.reverse) := by
        rw [List.reverse_append, hbr]
        simp
      simp only [stripBase64Pad, hab, hbr]
      by_cases h1 : e1 = '='
      · by_cases h2 : e2 = '='
        · simp [h1, h2, List.reverse_append]
        · simp [h1, h2, List.reverse_append]
      · simp [h1]

theorem stripBase64Pad_encode : ∀ (bs : List Nat), (∀ b ∈ bs, b < 256) →
    stripBase64Pad (b64EncodeBytes bs) = b64EncodeClean bs := by
  intro bs
  induction bs using b64EncodeBytes.induct with
  | case1 => intro _; rfl
  | case2 b1 =>
    intro _
    simp [b64EncodeBytes, b64EncodeClean, stripBase64Pad]
  | case3 b1 b2 =>
    intro hb
    have h2 : b2 < 256 := hb _ (by simp)
    have hne : b64Char (b2 % 16 * 4) ≠ '=' := b64Char_ne_pad _ (by omega)
    simp [b64EncodeBytes, b64EncodeClean, stripBase64Pad, hne]
  | case4 b1 b2 b3 r ih =>
    intro hb
    rcases r with _ | ⟨b4, r'⟩
    · have h3 : b3 < 256 := hb _ (by simp)
      have hne : b64Char (b3 % 64) ≠ '=' := b64Char_ne_pad _ (by omega)
      simp [b64EncodeBytes, b64EncodeClean, stripBase64Pad, hne]
    · have hlen : 2 ≤ (b64EncodeBytes (b4 :: r')).length := by
        have := b64EncodeBytes_length_ge b4 r'
        omega
      rw [show b64EncodeBytes (b1 :: b2 :: b3 :: b4 :: r') =
          [b64Char (b1 / 4), b64Char (b1 % 4 * 16 + b2 / 16), b64Char (b2 % 16 * 4 + b3 / 64),
           b64Char (b3 % 64)] ++ b64EncodeBytes (b4 :: r') from rfl,
        stripBase64Pad_append _ _ hlen,
        ih (fun b hbm => hb b (by simp [hbm]))]
      rfl

theorem optionMapM_loop_eq {α β : Type} (f : α → Option β) :
    ∀ (l : List α) (acc : List β),
      List.mapM.loop f l acc =
        (List.mapM.loop f l []).map (fun vs => acc.reverse ++ vs) := by
  intro l
  induction l with
  | nil => intro acc; simp [List.mapM.loop]
  | cons a l ih =>
    intro acc
    rcases hfa : f a with _ | b
    · simp [List.mapM.loop, hfa]
    · rw [show List.mapM.loop f (a :: l) acc =
          (f a).bind (fun x => List.mapM.loop f l (x :: acc)) from rfl,
        show List.mapM.loop f (a :: l) [] =
          (f a).bind (fun x => List.mapM.loop f l [x]) from rfl, hfa,
        Option.some_bind, Option.some_bind, ih (b :: acc), ih [b]]
      cases hl : List.mapM.loop f l [] <;>
        simp [List.reverse_cons, List.append_assoc]

theorem optionMapM_loop_cons {α β : Type} (f : α → Option β) (a : α) (l : List α)
    (acc : List β) (b : β) (hfa : f a = some b) :
    List.mapM.loop f (a :: l) acc = List.mapM.loop f l (b :: acc) := by
  rw [show List.mapM.loop f (a :: l) acc =
      (f a).bind (fun x => List.mapM.loop f l (x :: acc)) from rfl, hfa, Option.some_bind]

theorem b64_decode_encodeClean : ∀ (bs : List Nat), (∀ b ∈ bs, b < 256) →
    ∃ vs, (b64EncodeClean bs).mapM b64Val = some vs ∧ b64DecodeVals vs = bs := by
  intro bs
  induction bs using b64EncodeClean.induct with
  | case1 => intro _; exact ⟨[], rfl, rfl⟩
  | case2 b1 =>
    intro hb
    have h1 : b1 < 256 := hb _ (by simp)
    refine ⟨[b1 / 4, b1 % 4 * 16], ?_, ?_⟩
    · simp [b64EncodeClean, List.mapM, List.mapM.loop,
        b64Val_b64Char _ (by omega : b1 / 4 < 64),
        b64Val_b64Char _ (by omega : b1 % 4 * 16 < 64)]
    · simp [b64DecodeVals]
      omega
  | case3 b1 b2 =>
    intro hb
    have h1 : b1 < 256 := hb _ (by simp)
    have h2 : b2 < 256 := hb _ (by simp)
    refine ⟨[b1 / 4, b1 % 4 * 16 + b2 / 16, b2 % 16 * 4], ?_, ?_⟩
    · simp [b64EncodeClean, List.mapM, List.mapM.loop,
        b64Val_b64Char _ (by omega : b1 / 4 < 64),
        b64Val_b64Char _ (by omega : b1 % 4 * 16 + b2 / 16 < 64),
        b64Val_b64Char _ (by omega : b2 % 16 * 4 < 64)]
    · simp [b64DecodeVals]
      constructor <;> omega
  | case4 b1 b2 b3 r ih =>
    intro hb
    have h1 : b1 < 256 := hb _ (by simp)
    have h2 : b2 < 256 := hb _ (by simp)
    have h3 : b3 < 256 := hb _ (by simp)
    obtain ⟨vs, hm, hd⟩ := ih (fun b hbm => hb b (by simp [hbm]))
    refine ⟨b1 / 4 :: (b1 % 4 * 16 + b2 / 16) :: (b2 % 16 * 4 + b3 / 64) :: b3 % 64 :: vs,
      ?_, ?_⟩
    · rw [show b64EncodeClean (b1 :: b2 :: b3 :: r) =
          b64Char (b1 / 4) :: b64Char (b1 % 4 * 16 + b2 / 16) ::
            b64Char (b2 % 16 * 4 + b3 / 64) :: b64Char (b3 % 64) :: b64EncodeClean r from rfl,
        show (b64Char (b1 / 4) :: b64Char (b1 % 4 * 16 + b2 / 16) ::
            b64Char (b2 % 16 * 4 + b3 / 64) :: b64Char (b3 % 64) ::
              b64EncodeClean r).mapM b64Val =
          List.mapM.loop b64Val (b64Char (b1 / 4) :: b64Char (b1 % 4 * 16 + b2 / 16) ::
            b64Char (b2 % 16 * 4 + b3 / 64) :: b64Char (b3 % 64) ::
              b64EncodeClean r) [] from rfl,
        optionMapM_loop_cons _ _ _ _ _ (b64Val_b64Char _ (by omega : b1 / 4 < 64)),
        optionMapM_loop_cons _ _ _ _ _
          (b64Val_b64Char _ (by omega : b1 % 4 * 16 + b2 / 16 < 64)),
        optionMapM_loop_cons _ _ _ _ _
          (b64Val_b64Char _ (by omega : b2 % 16 * 4 + b3 / 64 < 64)),
        optionMapM_loop_cons _ _ _ _ _ (b64Val_b64Char _ (by omega : b3 % 64 < 64)),
        optionMapM_loop_eq,
        show List.mapM.loop b64Val (b64EncodeClean r) [] =
          (b64EncodeClean r).mapM b64Val from rfl, hm]
      simp
    · simp [b64DecodeVals, hd]
      refine ⟨by omega, by omega, by omega⟩

theorem length_b64EncodeClean_mod (bs : List Nat) : (b64EncodeClean bs).length % 4 ≠ 1 := by
  induction bs using b64EncodeClean.induct with
  | case1 => simp [b64EncodeClean]
  | case2 b1 => simp [b64EncodeClean]
  | case3 b1 b2 => simp [b64EncodeClean]
  | case4 b1 b2 b3 r ih =>
    simp only [b64EncodeClean, List.length_cons]
    omega

theorem atob_btoa_roundtrip (s : String) (h : ∀ c ∈ s.data, c.toNat ≤ 255) :
    btoa s = some ⟨b64EncodeBytes (s.data.map Char.toNat)⟩ ∧
    atob ⟨b64EncodeBytes (s.data.map Char.toNat)⟩ = some s := by
  have hbytes : ∀ b ∈ s.data.map Char.toNat, b < 256 := by
    intro b hb
    simp at hb
    obtain ⟨c, hc, rfl⟩ := hb
    have := h c hc
    omega
  constructor
  · rw [btoa, if_pos]
    rw [List.all_eq_true]
    intro c hc
    simpa using h c hc
  · rw [show atob ⟨b64EncodeBytes (s.data.map Char.toNat)⟩ =
      (if (if ((b64EncodeBytes (s.data.map Char.toNat)).filter
              (fun c => !asciiWs c)).length % 4 = 0
           then stripBase64Pad ((b64EncodeBytes (s.data.map Char.toNat)).filter
             (fun c => !asciiWs c))
           else (b64EncodeBytes (s.data.map Char.toNat)).filter
             (fun c => !asciiWs c)).length % 4 = 1
       then none
       else ((if ((b64EncodeBytes (s.data.map Char.toNat)).filter
              (fun c => !asciiWs c)).length % 4 = 0
           then stripBase64Pad ((b64EncodeBytes (s.data.map Char.toNat)).filter
             (fun c => !asciiWs c))
           else (b64EncodeBytes (s.data.map Char.toNat)).filter
             (fun c => !asciiWs c)).mapM b64Val).map
         (fun vs => (⟨(b64DecodeVals vs).map Char.ofNat⟩ : String))) from rfl]
    rw [filter_b64EncodeBytes _ hbytes, if_pos (length_b64EncodeBytes_mod _),
      stripBase64Pad_encode _ hbytes, if_neg (length_b64EncodeClean_mod _)]
    obtain ⟨vs, hm, hd⟩ := b64_decode_encodeClean _ hbytes
    rw [hm,
      show (some vs).map (fun vs => (⟨(b64DecodeVals vs).map Char.ofNat⟩ : String)) =
        some (⟨(b64DecodeVals vs).map Char.ofNat⟩ : String) from rfl]
    congr 1
    rw [hd, List.map_map]
    have hid : ∀ c ∈ s.data, (Char.ofNat ∘ Char.toNat) c = id c := fun c _ =>
      Char.ofNat_toNat c
    rw [List.map_congr_left hid, List.map_id]


set_option maxHeartbeats 2000000 in
theorem parseStringBody_u (c : Char) (t : List Char) (h8 : c.toNat < 0x20) :
    parseStringBody ('\\' :: 'u' :: '0' :: '0' :: hexDigitChar (c.toNat / 16) ::
      hexDigitChar (c.toNat % 16) :: t) =
      (parseStringBody t).map (fun p => (c :: p.1, p.2)) := by
  have e1 := hexDigitVal_hexDigitChar (c.toNat / 16) (by omega)
  have e2 := hexDigitVal_hexDigitChar (c.toNat % 16) (by omega)
  have e0 : hexDigitVal '0' = some 0 := rfl
  have hhex : hex4 '0' '0' (hexDigitChar (c.toNat / 16)) (hexDigitChar (c.toNat % 16)) =
      some c.toNat := by
    simp [hex4, e0, e1, e2]
    omega
  rw [parseStringBody.eq_def]
  split
  case h_3 =>
    rename_i a b c2 d2 r heq
    obtain ⟨rfl, rfl, rfl, rfl, rfl⟩ := heq
    simp only [hhex]
    rw [if_neg (by omega), if_neg (by omega), Char.ofNat_toNat]
  case h_4 =>
    rename_i x0 e r hcon heq
    obtain ⟨rfl, rfl⟩ := heq
    exact absurd rfl
      (hcon '0' '0' (hexDigitChar (c.toNat / 16)) (hexDigitChar (c.toNat % 16)) t rfl)
  case h_5 =>
    rename_i x0 c0 r hne hcon heq
    obtain ⟨rfl, rfl⟩ := heq
    exact absurd rfl
      (hcon 'u' ('0' :: '0' :: hexDigitChar (c.toNat / 16) ::
        hexDigitChar (c.toNat % 16) :: t) rfl)
  all_goals simp_all

set_option maxHeartbeats 2000000 in
theorem parseStringBody_lit (c : Char) (t : List Char) (h1 : ¬ c = '"')
    (h2 : ¬ c = '\\') (h8 : ¬ c.toNat < 0x20) :
    parseStringBody (c :: t) = (parseStringBody t).map (fun p => (c :: p.1, p.2)) := by
  rw [parseStringBody.eq_def]
  split
  all_goals simp_all

theorem parseStringBody_escChar (c : Char) (t : List Char) :
    parseStringBody (escChar c ++ t) = (parseStringBody t).map (fun p => (c :: p.1, p.2)) := by
  by_cases h1 : c = '"'
  · subst h1; rfl
  by_cases h2 : c = '\\'
  · subst h2; rfl
  by_cases h3 : c = '\x08'
  · subst h3; rfl
  by_cases h4 : c = '\x09'
  · subst h4; rfl
  by_cases h5 : c = '\x0A'
  · subst h5; rfl
  by_cases h6 : c = '\x0C'
  · subst h6; rfl
  by_cases h7 : c = '\x0D'
  · subst h7; rfl
  by_cases h8 : c.toNat < 0x20
  · have hesc : escChar c = ['\\', 'u', '0', '0', hexDigitChar (c.toNat / 16),
        hexDigitChar (c.toNat % 16)] := by
      simp only [escChar, if_neg h1, if_neg h2, if_neg h3, if_neg h4, if_neg h5, if_neg h6,
        if_neg h7, if_pos h8]
    rw [hesc]
    exact parseStringBody_u c t h8
  · have hesc : escChar c = [c] := by
      simp only [escChar, if_neg h1, if_neg h2, if_neg h3, if_neg h4, if_neg h5, if_neg h6,
        if_neg h7, if_neg h8]
    rw [hesc]
    exact parseStringBody_lit c t h1 h2 h8

theorem parseStringBody_escList (l : List Char) (rest : List Char) :
    parseStringBody (l.flatMap escChar ++ '"' :: rest) = some (l, rest) := by
  induction l with
  | nil => rfl
  | cons c l ih =>
    rw [show (c :: l).flatMap escChar = escChar c ++ l.flatMap escChar from rfl,
      List.append_assoc, parseStringBody_escChar, ih]
    rfl

theorem parseStringBody_escString (s : String) (rest : List Char) :
    parseStringBody (escString s ++ '"' :: rest) = some (s.data, rest) :=
  parseStringBody_escList s.data rest

theorem data_mk (l : List Char) : (String.mk l).data = l := rfl

theorem strData_append (a b : String) : (a ++ b).data = a.data ++ b.data := rfl

theorem stringifyAuthRequest_data (r : AuthRequest) :
    (stringifyAuthRequest r).data =
      '\x7b' :: '"' :: ("clientId".data ++ '"' :: ':' :: '"' ::
        (escString r.clientId ++ '"' :: ',' :: '"' ::
          ("scope".data ++ '"' :: ':' :: '"' ::
            (escString r.scope ++ '"' :: ',' :: '"' ::
              ("state".data ++ '"' :: ':' :: '"' ::
                (escString r.state ++ ['"', '\x7d'])))))) := by
  simp only [stringifyAuthRequest, strData_append, data_mk, List.append_assoc]
  rfl

theorem parseJsonValue_str (f : Nat) (hf : 0 < f) (s : String) (rest : List Char) :
    parseJsonValue f ('"' :: (escString s ++ '"' :: rest)) = some (Json.str s, rest) := by
  obtain ⟨g, rfl⟩ : ∃ g, f = g + 1 := ⟨f - 1, by omega⟩
  have h0 : parseJsonValue (g + 1) ('"' :: (escString s ++ '"' :: rest)) =
      (parseStringBody (escString s ++ '"' :: rest)).map (fun p => (Json.str ⟨p.1⟩, p.2)) := rfl
  rw [h0, parseStringBody_escString]
  rfl

theorem parseJsonValue_objStr (f : Nat) (hf : 0 < f) (X : List Char) :
    parseJsonValue f ('\x7b' :: '"' :: X) =
      (parseJsonMembers (f - 1) ('"' :: X)).map (fun p => (Json.obj p.1, p.2)) := by
  obtain ⟨g, rfl⟩ : ∃ g, f = g + 1 := ⟨f - 1, by omega⟩
  rw [show g + 1 - 1 = g from rfl]
  exact rfl

theorem membersStepClientId (f : Nat) (hf : 1 < f) (s : String) (X : List Char) :
    parseJsonMembers f
        ('"' :: ("clientId".data ++ '"' :: ':' :: '"' ::
          (escString s ++ '"' :: ',' :: '"' :: X))) =
      (parseJsonMembers (f - 1) ('"' :: X)).map
        (fun p => ((("clientId" : String), Json.str s) :: p.1, p.2)) := by
  obtain ⟨g, rfl⟩ : ∃ g, f = g + 2 := ⟨f - 2, by omega⟩
  rw [show g + 2 - 1 = g + 1 from rfl]
  have h0 : parseJsonMembers (g + 2)
      ('"' :: ("clientId".data ++ '"' :: ':' :: '"' ::
        (escString s ++ '"' :: ',' :: '"' :: X))) =
      (fun o : Option (Json × List Char) =>
        match o with
        | none => none
        | some (v, r4) =>
          match skipJsonWs r4 with
          | ',' :: r5 => (parseJsonMembers (g + 1) (skipJsonWs r5)).map
              (fun p => ((("clientId" : String), v) :: p.1, p.2))
          | '\x7d' :: r5 => some ([(("clientId" : String), v)], r5)
          | _ => none)
      (parseJsonValue (g + 1) ('"' :: (escString s ++ '"' :: ',' :: '"' :: X))) := rfl
  rw [h0, parseJsonValue_str (g + 1) (by omega) s (',' :: '"' :: X)]
  rfl

theorem membersStepScope (f : Nat) (hf : 1 < f) (s : String) (X : List Char) :
    parseJsonMembers f
        ('"' :: ("scope".data ++ '"' :: ':' :: '"' ::
          (escString s ++ '"' :: ',' :: '"' :: X))) =
      (parseJsonMembers (f - 1) ('"' :: X)).map
        (fun p => ((("scope" : String), Json.str s) :: p.1, p.2)) := by
  obtain ⟨g, rfl⟩ : ∃ g, f = g + 2 := ⟨f - 2, by omega⟩
  rw [show g + 2 - 1 = g + 1 from rfl]
  have h0 : parseJsonMembers (g + 2)
      ('"' :: ("scope".data ++ '"' :: ':' :: '"' ::
        (escString s ++ '"' :: ',' :: '"' :: X))) =
      (fun o : Option (Json × List Char) =>
        match o with
        | none => none
        | some (v, r4) =>
          match skipJsonWs r4 with
          | ',' :: r5 => (parseJsonMembers (g + 1) (skipJsonWs r5)).map
              (fun p => ((("scope" : String), v) :: p.1, p.2))
          | '\x7d' :: r5 => some ([(("scope" : String), v)], r5)
          | _ => none)
      (parseJsonValue (g + 1) ('"' :: (escString s ++ '"' :: ',' :: '"' :: X))) := rfl
  rw [h0, parseJsonValue_str (g + 1) (by omega) s (',' :: '"' :: X)]
  rfl

theorem membersLastState (f : Nat) (hf : 1 < f) (s : String) :
    parseJsonMembers f
        ('"' :: ("state".data ++ '"' :: ':' :: '"' :: (escString s ++ ['"', '\x7d']))) =
      some ([(("state" : String), Json.str s)], []) := by
  obtain ⟨g, rfl⟩ : ∃ g, f = g + 2 := ⟨f - 2, by omega⟩
  have h0 : parseJsonMembers (g + 2)
      ('"' :: ("state".data ++ '"' :: ':' :: '"' :: (escString s ++ ['"', '\x7d']))) =
      (fun o : Option (Json × List Char) =>
        match o with
        | none => none
        | some (v, r4) =>
          match skipJsonWs r4 with
          | ',' :: r5 => (parseJsonMembers (g + 1) (skipJsonWs r5)).map
              (fun p => ((("state" : String), v) :: p.1, p.2))
          | '\x7d' :: r5 => some ([(("state" : String), v)], r5)
          | _ => none)
      (parseJsonValue (g + 1) ('"' :: (escString s ++ ['"', '\x7d']))) := rfl
  rw [h0, parseJsonValue_str (g + 1) (by omega) s ['\x7d']]
  rfl

theorem parseJsonValue_stringify (r : AuthRequest) (fuel : Nat) :
    parseJsonValue (fuel + 5) (stringifyAuthRequest r).data =
      some (AuthRequest.toJson r, []) := by
  rw [stringifyAuthRequest_data]
  rw [parseJsonValue_objStr (fuel + 5) (by omega)]
  rw [membersStepClientId (fuel + 5 - 1) (by omega)]
  rw [membersStepScope (fuel + 5 - 1 - 1) (by omega)]
  rw [membersLastState (fuel + 5 - 1 - 1 - 1) (by omega)]
  rfl

theorem jsonParse_stringifyAuthRequest (r : AuthRequest) :
    jsonParse (stringifyAuthRequest r) = some (AuthRequest.toJson r) := by
  have hlen : (stringifyAuthRequest r).length = (stringifyAuthRequest r).data.length := rfl
  have h4 : 4 ≤ (stringifyAuthRequest r).length := by
    rw [hlen, stringifyAuthRequest_data]
    simp [List.length_append]
  have hfuel : (stringifyAuthRequest r).length + 1 =
      ((stringifyAuthRequest r).length - 4) + 5 := by omega
  simp only [jsonParse]
  rw [hfuel, parseJsonValue_stringify]
  rfl

theorem hexDigitChar_le : ∀ v : Nat, v < 16 → (hexDigitChar v).toNat ≤ 255 := by decide

theorem escChar_le (c : Char) (hc : c.toNat ≤ 255) : ∀ x ∈ escChar c, x.toNat ≤ 255 := by
  intro x hx
  by_cases h1 : c = '"'
  · subst h1
    rw [show escChar '"' = ['\\', '"'] from rfl] at hx
    simp only [List.mem_cons, List.not_mem_nil, or_false] at hx
    rcases hx with rfl | rfl <;> decide
  by_cases h2 : c = '\\'
  · subst h2
    rw [show escChar '\\' = ['\\', '\\'] from rfl] at hx
    simp only [List.mem_cons, List.not_mem_nil, or_false] at hx
    rcases hx with rfl | rfl <;> decide
  by_cases h3 : c = '\x08'
  · subst h3
    rw [show escChar '\x08' = ['\\', 'b'] from rfl] at hx
    simp only [List.mem_cons, List.not_mem_nil, or_false] at hx
    rcases hx with rfl | rfl <;> decide
  by_cases h4 : c = '\x09'
  · subst h4
    rw [show escChar '\x09' = ['\\', 't'] from rfl] at hx
    simp only [List.mem_cons, List.not_mem_nil, or_false] at hx
    rcases hx with rfl | rfl <;> decide
  by_cases h5 : c = '\x0A'
  · subst h5
    rw [show escChar '\x0A' = ['\\', 'n'] from rfl] at hx
    simp only [List.mem_cons, List.not_mem_nil, or_false] at hx
    rcases hx with rfl | rfl <;> decide
  by_cases h6 : c = '\x0C'
  · subst h6
    rw [show escChar '\x0C' = ['\\', 'f'] from rfl] at hx
    simp only [List.mem_cons, List.not_mem_nil, or_false] at hx
    rcases hx with rfl | rfl <;> decide
  by_cases h7 : c = '\x0D'
  · subst h7
    rw [show escChar '\x0D' = ['\\', 'r'] from rfl] at hx
    simp only [List.mem_cons, List.not_mem_nil, or_false] at hx
    rcases hx with rfl | rfl <;> decide
  by_cases h8 : c.toNat < 0x20
  · rw [show escChar c = ['\\', 'u', '0', '0', hexDigitChar (c.toNat / 16),
        hexDigitChar (c.toNat % 16)] from by
      simp only [escChar, if_neg h1, if_neg h2, if_neg h3, if_neg h4, if_neg h5, if_neg h6,
        if_neg h7, if_pos h8]] at hx
    simp only [List.mem_cons, List.not_mem_nil, or_false] at hx
    rcases hx with rfl | rfl | rfl | rfl | rfl | rfl
    · decide
    · decide
    · decide
    · decide
    · exact hexDigitChar_le _ (by omega)
    · exact hexDigitChar_le _ (by omega)
  · rw [show escChar c = [c] from by
      simp only [escChar, if_neg h1, if_neg h2, if_neg h3, if_neg h4, if_neg h5, if_neg h6,
        if_neg h7, if_neg h8]] at hx
    simp only [List.mem_cons, List.not_mem_nil, or_false] at hx
    subst hx
    exact hc

theorem escString_le (s : String) (h : ∀ c ∈ s.data, c.toNat ≤ 255) :
    ∀ x ∈ escString s, x.toNat ≤ 255 := by
  intro x hx
  simp only [escString, List.mem_flatMap] at hx
  obtain ⟨c, hc, hcx⟩ := hx
  exact escChar_le c (h c hc) x hcx

theorem stringify_chars_le (r : AuthRequest)
    (h1 : ∀ c ∈ r.clientId.data, c.toNat ≤ 255)
    (h2 : ∀ c ∈ r.scope.data, c.toNat ≤ 255)
    (h3 : ∀ c ∈ r.state.data, c.toNat ≤ 255) :
    ∀ c ∈ (stringifyAuthRequest r).data, c.toNat ≤ 255 := by
  have e1 := escString_le r.clientId h1
  have e2 := escString_le r.scope h2
  have e3 := escString_le r.state h3
  have l1 : ∀ c ∈ ("\x7b\"clientId\":\"" : String).data, c.toNat ≤ 255 := by decide
  have l2 : ∀ c ∈ ("\",\"scope\":\"" : String).data, c.toNat ≤ 255 := by decide
  have l3 : ∀ c ∈ ("\",\"state\":\"" : String).data, c.toNat ≤ 255 := by decide
  have l4 : ∀ c ∈ ("\"\x7d" : String).data, c.toNat ≤ 255 := by decide
  intro c hc
  simp only [stringifyAuthRequest, strData_append, data_mk, List.mem_append] at hc
  rcases hc with ((((((hc | hc) | hc) | hc) | hc) | hc) | hc)
  exacts [l1 c hc, e1 c hc, l2 c hc, e2 c hc, l3 c hc, e3 c hc, l4 c hc]

theorem authRequestOfJson_toJson (r : AuthRequest) :
    authRequestOfJson (AuthRequest.toJson r) = some r := rfl

/-- C9: the literal round-trip claim is refuted: for an `AuthRequest` whose
clientId contains U+20AC (a character above U+00FF), `redirectToGoogle`'s
`btoa(JSON.stringify(oauthReqInfo))` throws an InvalidCharacterError, so no
state parameter is produced and nothing can be echoed back. -/
theorem C9_nonlatin1_state_faults :
    encodeStateParam ⟨"€", "", ""⟩ = none := by decide

/-- C9 (amended): for every `AuthRequest` whose three fields contain only
characters at or below U+00FF, the state round trip is the identity: the
`btoa(JSON.stringify(r))` encoding of `redirectToGoogle` succeeds, the
`JSON.parse(atob(state))` decoding of `/callback` recovers exactly the
serialized JSON object, and that object determines the original request. -/
theorem C9_state_roundtrip (r : AuthRequest)
    (h1 : ∀ c ∈ r.clientId.data, c.toNat ≤ 255)
    (h2 : ∀ c ∈ r.scope.data, c.toNat ≤ 255)
    (h3 : ∀ c ∈ r.state.data, c.toNat ≤ 255) :
    ∃ enc, encodeStateParam r = some enc ∧
      decodeStateParam (some enc) = some (AuthRequest.toJson r) ∧
      authRequestOfJson (AuthRequest.toJson r) = some r := by
  have hall := stringify_chars_le r h1 h2 h3
  obtain ⟨he, hd⟩ := atob_btoa_roundtrip (stringifyAuthRequest r) hall
  refine ⟨⟨b64EncodeBytes ((stringifyAuthRequest r).data.map Char.toNat)⟩, he, ?_, ?_⟩
  · have h0 : decodeStateParam
        (some (⟨b64EncodeBytes ((stringifyAuthRequest r).data.map Char.toNat)⟩ : String)) =
        atob ⟨b64EncodeBytes ((stringifyAuthRequest r).data.map Char.toNat)⟩ >>= jsonParse :=
      rfl
    rw [h0, hd]
    show jsonParse (stringifyAuthRequest r) = some (AuthRequest.toJson r)
    exact jsonParse_stringifyAuthRequest r
  · exact authRequestOfJson_toJson r

/-- Witness for C9: the round trip evaluated at a concrete request. -/
theorem C9_state_roundtrip_witness :
    ∃ enc, encodeStateParam ⟨"abc", "openid email profile", "xyz"⟩ = some enc ∧
      decodeStateParam (some enc) =
        some (AuthRequest.toJson ⟨"abc", "openid email profile", "xyz"⟩) ∧
      authRequestOfJson (AuthRequest.toJson ⟨"abc", "openid email profile", "xyz"⟩) =
        some ⟨"abc", "openid email profile", "xyz"⟩ :=
  C9_state_roundtrip ⟨"abc", "openid email profile", "xyz"⟩
    (by decide) (by decide) (by decide)

end SimbriefMCP
